import Mathlib

/-!
Verification development for the binned-dataset core (`src/io/dataset.cpp`) of a
gradient-boosted tree trainer.  The C++ source is shallowly embedded: machine
integers (`int` / `data_size_t`) become `Int` (the algorithm keeps all counters
far below 2^31, so wrap-around is never reachable on the inputs considered),
`uint8_t` conflict marks become `Nat` (the algorithm caps them at
`max_concurrent_feature_per_group = 64`, so the 8-bit wrap is never reachable),
`double` histogram entries become `ℚ` (the claims under study are exact
algebraic statements about the accumulation structure), and fallible calls
return `Option`.  External collaborators that are declared but not defined in
the provided source (`BinMapper` queries, `BinStorage::ConstructHistogram`,
`VirtualFileWriter`, the `Random` utility) are modelled from their contracts in
the specification; each such model is marked in its doc comment.
-/

namespace LightGBM

/-- Model of the external `BinMapper` interface (contract only in the spec):
`num_bin`, `default_bin`, `most_freq_bin`, `sparse_rate`, `value_to_bin`,
`is_trivial`. -/
structure BinMapperModel where
  numBin : Nat
  defaultBin : Nat
  mostFreqBin : Nat
  isTrivial : Bool
  sparseRate : ℚ
  valueToBin : ℚ → Nat

instance : Inhabited BinMapperModel :=
  ⟨{ numBin := 1, defaultBin := 0, mostFreqBin := 0, isTrivial := true,
     sparseRate := 0, valueToBin := fun _ => 0 }⟩

/-- The bin-count increment `Δbin(f) = num_bin(f) + (default_bin(f) == 0 ? -1 : 0)`
used throughout `FindGroups`. -/
def deltaBin (bm : BinMapperModel) : Int :=
  (bm.numBin : Int) + (if bm.defaultBin = 0 then -1 else 0)

/-- Modelled from the spec: the `Random` utility (`utils/random.h`) is not part
of the provided source.  The spec requires only a deterministic PRNG seeded
with the row count, `Sample n k` returning a sample of indices from `[0, n)`
and `NextShort lo hi` a draw in `[lo, hi)`.  We model the generator as a
32-bit linear congruential generator carried as explicit state. -/
structure RandomModel where
  x : Nat

def mkRandom (seed : Nat) : RandomModel := ⟨seed⟩

def RandomModel.randInt16 (r : RandomModel) : Nat × RandomModel :=
  let x := (214013 * r.x + 2531011) % 4294967296
  ((x / 65536) % 32768, ⟨x⟩)

def RandomModel.nextShort (r : RandomModel) (lo hi : Nat) : Nat × RandomModel :=
  let p := r.randInt16
  (lo + p.1 % (hi - lo), p.2)

/-- Modelled from the spec: selection sampling of `min n k` indices out of
`[0, n)`, driven by the LCG state.  Every returned index is `< n`. -/
def RandomModel.sample (r : RandomModel) (n k : Nat) : List Nat × RandomModel :=
  let res := (List.range n).foldl
    (fun (acc : List Nat × Nat × RandomModel) i =>
      let (chosen, need, rng) := acc
      if need = 0 then acc
      else
        let p := rng.randInt16
        if p.1 % (n - i) < need then (chosen ++ [i], need - 1, p.2)
        else (chosen, need, p.2))
    ([], min n k, r)
  (res.1, res.2.2)

/-- Translation of `NoGroup`: one feature per group. -/
def noGroup (usedFeatures : List Nat) : List (List Nat) :=
  usedFeatures.map (fun f => [f])

/-- Loop body of `GetConfilctCount`, with the source's two early returns:
`-1` when a mark would exceed `max_feature_cnt`, `-1` when the running count
reaches `max_cnt`. -/
def getConfilctCountAux (mark : List Nat) (maxCnt : Int) (maxFeatureCnt : Nat) :
    List Nat → Int → Int
  | [], ret => ret
  | i :: rest, ret =>
    let m := mark.getD i 0
    if m ≠ 0 ∧ m + 1 > maxFeatureCnt then -1
    else
      let ret' := if m ≠ 0 then ret + 1 else ret
      if ret' ≥ maxCnt then -1
      else getConfilctCountAux mark maxCnt maxFeatureCnt rest ret'

/-- Translation of `GetConfilctCount` (the source spells it this way). -/
def getConfilctCount (mark : List Nat) (indices : List Nat) (maxCnt : Int)
    (maxFeatureCnt : Nat) : Int :=
  getConfilctCountAux mark maxCnt maxFeatureCnt indices 0

/-- Translation of `MarkUsed`: increment the mark of every listed row. -/
def markUsed (mark : List Nat) (indices : List Nat) : List Nat :=
  indices.foldl (fun m i => m.set i (m.getD i 0 + 1)) mark

/-- Loop of `FixSampleIndices`: a two-pointer walk over `[0, num_total_samples)`
against the sorted non-zero sample list. -/
def fixGo (bm : BinMapperModel) (inds : List Nat) (vals : List ℚ)
    (numTotal : Nat) (i j : Nat) : List Nat :=
  if hi : i < numTotal then
    if hj : j < inds.length ∧ inds.getD j 0 < i then
      fixGo bm inds vals numTotal i (j + 1)
    else if j < inds.length ∧ inds.getD j 0 = i then
      (if bm.valueToBin (vals.getD j 0) ≠ bm.mostFreqBin then [i] else []) ++
        fixGo bm inds vals numTotal (i + 1) j
    else
      i :: fixGo bm inds vals numTotal (i + 1) j
  else []
termination_by (numTotal - i, inds.length - j)
decreasing_by
  · exact Prod.Lex.right _ (by omega)
  · exact Prod.Lex.left _ _ (by omega)
  · exact Prod.Lex.left _ _ (by omega)

/-- Translation of `FixSampleIndices`: empty when `default_bin == most_freq_bin`,
otherwise the synthesized augmented non-zero index list. -/
def fixSampleIndices (bm : BinMapperModel) (numTotalSamples : Nat)
    (inds : List Nat) (vals : List ℚ) : List Nat :=
  if bm.defaultBin = bm.mostFreqBin then [] else fixGo bm inds vals numTotalSamples 0 0

/-- Inputs shared by both passes of `FindGroups`.  Sample-index lists carry
their own length, playing the role of `num_per_col` after the caller's fixup. -/
structure FGCtx where
  bms : List BinMapperModel
  sidx : List (List Nat)
  numSampleCol : Nat
  S : Int
  useGpu : Bool

/-- The tuned constant `single_val_max_conflict_cnt = total_sample_cnt / 10000`. -/
def FGCtx.K (c : FGCtx) : Int := c.S / 10000

/-- State of pass 1 of `FindGroups`. -/
structure FGState where
  groups : List (List Nat)
  marks : List (List Nat)
  used : List Int
  total : List Int
  nbin : List Int
  rng : RandomModel

/-- Search-set selection shared by both passes: the last available group plus a
random sample of `min (last) (max_search_group - 1)` of the rest. -/
def pickSearchGroups (avail : List Nat) (rng : RandomModel) : List Nat × RandomModel :=
  if avail = [] then ([], rng)
  else
    let last := avail.length - 1
    let p := rng.sample last (min last 99)
    (avail.getLastD 0 :: p.1.map (fun i => avail.getD i 0), p.2)

/-- Pass-1 candidate scan: accept the first searched group whose conflict count
is valid, at most `rest_max_cnt`, and at most half the feature's non-zero count. -/
def pass1Select (marks : List (List Nat)) (used total : List Int) (K : Int)
    (filtered : Bool) (cnz : Int) (inds : List Nat) : List Nat → Option (Nat × Int)
  | [] => none
  | g :: rest =>
    let restMax := K - total.getD g 0 + used.getD g 0
    let cnt : Int :=
      if filtered then 0 else getConfilctCount (marks.getD g []) inds restMax 1
    if 0 ≤ cnt ∧ cnt ≤ restMax ∧ cnt ≤ cnz / 2 then some (g, cnt)
    else pass1Select marks used total K filtered cnz inds rest

/-- The pass-1 available-group filter: room for the feature's non-zero count
within `S + single_val_max_conflict_cnt`, and the GPU bin cap when applicable. -/
def pass1Avail (c : FGCtx) (st : FGState) (fidx : Nat) : List Nat :=
  let filtered := c.numSampleCol ≤ fidx
  let cnz : Int := if filtered then 0 else ((c.sidx.getD fidx []).length : Int)
  let db := deltaBin (c.bms.getD fidx default)
  (List.range st.groups.length).filter (fun g =>
    decide (st.total.getD g 0 + cnz ≤ c.S + c.K) &&
      (!c.useGpu || decide (st.nbin.getD g 0 + db ≤ 256)))

/-- Search-set draw plus pass-1 candidate scan, with the advanced RNG. -/
def pass1SelResult (c : FGCtx) (st : FGState) (fidx : Nat) :
    Option (Nat × Int) × RandomModel :=
  let filtered := c.numSampleCol ≤ fidx
  let inds := c.sidx.getD fidx []
  let cnz : Int := if filtered then 0 else (inds.length : Int)
  let sr := pickSearchGroups (pass1Avail c st fidx) st.rng
  (pass1Select st.marks st.used st.total c.K filtered cnz inds sr.1, sr.2)

/-- One pass-1 iteration of `FindGroups` for feature `fidx`. -/
def pass1Step (c : FGCtx) (st : FGState) (fidx : Nat) : FGState :=
  let filtered := c.numSampleCol ≤ fidx
  let inds := c.sidx.getD fidx []
  let cnz : Int := if filtered then 0 else (inds.length : Int)
  let db := deltaBin (c.bms.getD fidx default)
  let sr := pass1SelResult c st fidx
  match sr.1 with
  | some (g, cnt) =>
    { groups := st.groups.set g (st.groups.getD g [] ++ [fidx])
      marks := if filtered then st.marks
               else st.marks.set g (markUsed (st.marks.getD g []) inds)
      used := st.used.set g (st.used.getD g 0 + (cnz - cnt))
      total := st.total.set g (st.total.getD g 0 + cnz)
      nbin := st.nbin.set g (st.nbin.getD g 0 + db)
      rng := sr.2 }
  | none =>
    { groups := st.groups ++ [[fidx]]
      marks := st.marks ++
        [if filtered then List.replicate c.S.toNat 0
         else markUsed (List.replicate c.S.toNat 0) inds]
      used := st.used ++ [cnz]
      total := st.total ++ [cnz]
      nbin := st.nbin ++ [1 + db]
      rng := sr.2 }

/-- The pass-2 split predicate `used_row_cnt / total_sample_cnt >= 0.6`, taken
exactly over ℚ (the source compares `double`s; `used` and `S` are 32-bit
integers, exactly representable, and no claim under study depends on the one
boundary value where the rounding of `0.6` could differ).  The `S = 0` branch
mirrors IEEE semantics of the source: `0/0 = NaN` compares false, `u/0 = +inf`
for `u > 0` compares true. -/
def denseRateHigh (used S : Int) : Bool :=
  if S = 0 then decide (0 < used) else decide (3 * S ≤ 5 * used)

/-- Accumulator of the split between pass 1 and pass 2: kept forced-single-val
groups plus the dissolved features, in iteration order. -/
structure SplitAcc where
  groups : List (List Nat)
  marks : List (List Nat)
  used : List Int
  total : List Int
  nbin : List Int
  second : List Nat

def splitStep (p1 : FGState) (S : Int) (acc : SplitAcc) (gid : Nat) : SplitAcc :=
  if denseRateHigh (p1.used.getD gid 0) S then
    { groups := acc.groups ++ [p1.groups.getD gid []]
      marks := acc.marks ++ [p1.marks.getD gid []]
      used := acc.used ++ [p1.used.getD gid 0]
      total := acc.total ++ [p1.total.getD gid 0]
      nbin := acc.nbin ++ [p1.nbin.getD gid 0]
      second := acc.second }
  else
    { acc with second := acc.second ++ p1.groups.getD gid [] }

/-- State of pass 2 of `FindGroups`.  The two boolean fields are observation
flags that record evaluation-order facts of the source without influencing the
computation: `tieOk` records that the tie-break read of
`group_total_data_cnt[best_gid]` never happened with the sentinel `best_gid = -1`
(claim C10), and `multiBinOk` records that every feature accepted into an
already multi-valued group satisfied `num_bin[g] + Δbin ≤ 2^14` at acceptance
time (claim C4). -/
structure FG2State where
  groups : List (List Nat)
  marks : List (List Nat)
  used : List Int
  total : List Int
  nbin : List Int
  multiVal : List Bool
  forced : List Bool
  rng : RandomModel
  tieOk : Bool
  multiBinOk : Bool

def splitGroups (S : Int) (p1 : FGState) : FG2State × List Nat :=
  let a := (List.range p1.groups.length).foldl (splitStep p1 S)
    ⟨[], [], [], [], [], []⟩
  (⟨a.groups, a.marks, a.used, a.total, a.nbin,
    List.replicate a.groups.length false,
    List.replicate a.groups.length true,
    p1.rng, true, true⟩, a.second)

/-- Read of `group_total_data_cnt[best_gid]` in the pass-2 tie-break.  The
source indexes with a possibly negative `int`; the model returns an arbitrary
value (`0`) there, and claim C10 proves that case unreachable. -/
def totalAt (total : List Int) (i : Int) : Int :=
  if 0 ≤ i then total.getD i.toNat 0 else 0

/-- The pass-2 `rest_max_cnt` for group `g`: `total_sample_cnt`, clamped to the
remaining single-val conflict budget for forced-single-val groups. -/
def p2Bound (S K : Int) (used total : List Int) (forced : List Bool) (g : Nat) : Int :=
  if forced.getD g false then min S (K - total.getD g 0 + used.getD g 0) else S

/-- A conflict count the pass-2 scan can have recorded for group `g`: valid,
at most `S`, and strictly below the group's budget unless zero. -/
def p2Valid (S K : Int) (used total : List Int) (forced : List Bool) (g : Nat)
    (cnt : Int) : Prop :=
  0 ≤ cnt ∧ cnt ≤ S ∧ (cnt = 0 ∨ cnt < p2Bound S K used total forced g)

/-- The pass-2 conflict count for group `g`: zero for filtered features,
otherwise `GetConfilctCount` with `max_feature_cnt = 64`. -/
def p2Cnt (marks : List (List Nat)) (filtered : Bool) (inds : List Nat)
    (restMax : Int) (g : Nat) : Int :=
  if filtered then 0 else getConfilctCount (marks.getD g []) inds restMax 64

/-- Pass-2 candidate scan: keep the searched group of smallest conflict count,
tie-broken toward forced-single-val groups and then smaller total count, with
an early break on a zero-conflict forced group.  The third component is the
`tieOk` observation for this scan. -/
def pass2Select (S K : Int) (marks : List (List Nat)) (used total : List Int)
    (forced : List Bool) (filtered : Bool) (inds : List Nat) :
    List Nat → Int → Int → Bool → Int × Int × Bool
  | [], bestGid, bestCnt, ok => (bestGid, bestCnt, ok)
  | g :: rest, bestGid, bestCnt, ok =>
    let restMax : Int := p2Bound S K used total forced g
    let cnt : Int := p2Cnt marks filtered inds restMax g
    if cnt < 0 then
      pass2Select S K marks used total forced filtered inds rest bestGid bestCnt ok
    else
      let tieReached := ¬cnt < bestCnt ∧ cnt = bestCnt ∧ forced.getD g false = false
      let ok' := ok && (!(decide tieReached) || decide (0 ≤ bestGid))
      let cond := cnt < bestCnt ∨
        (cnt = bestCnt ∧ (forced.getD g false = true ∨ totalAt total bestGid > total.getD g 0))
      let bestGid' := if cond then (g : Int) else bestGid
      let bestCnt' := if cond then cnt else bestCnt
      if cnt = 0 ∧ forced.getD g false then (bestGid', bestCnt', ok')
      else pass2Select S K marks used total forced filtered inds rest bestGid' bestCnt' ok'

/-- The pass-2 available-group filter: skip multi-valued groups over the
multi-val bin cap, require room under the forced/multi-val sample budget, and
the GPU bin cap when applicable. -/
def pass2Avail (c : FGCtx) (st : FG2State) (fidx : Nat) : List Nat :=
  let filtered := c.numSampleCol ≤ fidx
  let cnz : Int := if filtered then 0 else ((c.sidx.getD fidx []).length : Int)
  let db := deltaBin (c.bms.getD fidx default)
  (List.range st.groups.length).filter (fun g =>
    let curNumBin := st.nbin.getD g 0 + db
    (!(st.multiVal.getD g false && decide (st.nbin.getD g 0 + curNumBin > 16384))) &&
      decide (st.total.getD g 0 + cnz ≤
        (if st.forced.getD g false then c.S + c.K else 10 * c.S)) &&
      (!c.useGpu || decide (curNumBin ≤ 256)))

/-- Search-set draw plus pass-2 candidate scan, with the advanced RNG. -/
def pass2SelResult (c : FGCtx) (st : FG2State) (fidx : Nat) :
    (Int × Int × Bool) × RandomModel :=
  let filtered := c.numSampleCol ≤ fidx
  let inds := c.sidx.getD fidx []
  let sr := pickSearchGroups (pass2Avail c st fidx) st.rng
  (pass2Select c.S c.K st.marks st.used st.total st.forced filtered inds
    sr.1 (-1) (c.S + 1) true, sr.2)

/-- One pass-2 iteration of `FindGroups` for feature `fidx`. -/
def pass2Step (c : FGCtx) (st : FG2State) (fidx : Nat) : FG2State :=
  let K := c.K
  let filtered := c.numSampleCol ≤ fidx
  let inds := c.sidx.getD fidx []
  let cnz : Int := if filtered then 0 else (inds.length : Int)
  let db := deltaBin (c.bms.getD fidx default)
  let sr := pass2SelResult c st fidx
  let sel := sr.1
  if 0 ≤ sel.1 then
    let bg := sel.1.toNat
    let bestCnt := sel.2.1
    { groups := st.groups.set bg (st.groups.getD bg [] ++ [fidx])
      marks := if filtered then st.marks
               else st.marks.set bg (markUsed (st.marks.getD bg []) inds)
      used := st.used.set bg (st.used.getD bg 0 + (cnz - bestCnt))
      total := st.total.set bg (st.total.getD bg 0 + cnz)
      nbin := st.nbin.set bg (st.nbin.getD bg 0 + db)
      multiVal :=
        if st.multiVal.getD bg false = false ∧
            st.total.getD bg 0 + cnz - (st.used.getD bg 0 + (cnz - bestCnt)) > K
        then st.multiVal.set bg true else st.multiVal
      forced := st.forced
      rng := sr.2
      tieOk := st.tieOk && sel.2.2
      multiBinOk := st.multiBinOk &&
        (!(st.multiVal.getD bg false) || decide (st.nbin.getD bg 0 + db ≤ 16384)) }
  else
    { groups := st.groups ++ [[fidx]]
      marks := st.marks ++
        [if filtered then List.replicate c.S.toNat 0
         else markUsed (List.replicate c.S.toNat 0) inds]
      used := st.used ++ [cnz]
      total := st.total ++ [cnz]
      nbin := st.nbin ++ [1 + db]
      multiVal := st.multiVal ++ [false]
      forced := st.forced ++ [false]
      rng := sr.2
      tieOk := st.tieOk && sel.2.2
      multiBinOk := st.multiBinOk }

/-- Result of `FindGroups` together with its final internal per-group counters
and the two observation flags. -/
structure FGResult where
  groups : List (List Nat)
  multiVal : List Bool
  forced : List Bool
  used : List Int
  total : List Int
  nbin : List Int
  tieOk : Bool
  multiBinOk : Bool

/-- Translation of `FindGroups`: pass 1 over `find_order`, the dense-rate split,
then pass 2 over the dissolved features, with one RNG seeded by `num_data`
threaded through both passes. -/
def findGroupsFull (c : FGCtx) (findOrder : List Nat) (numData : Nat) : FGResult :=
  let st1 := findOrder.foldl (pass1Step c) ⟨[], [], [], [], [], mkRandom numData⟩
  let sp := splitGroups c.S st1
  let st2 := sp.2.foldl (pass2Step c) sp.1
  ⟨st2.groups, st2.multiVal, st2.forced, st2.used, st2.total, st2.nbin,
    st2.tieOk, st2.multiBinOk⟩

/-- The feature ordering by non-zero count, descending, stable (the source uses
`std::stable_sort` with comparator `cnt[a] > cnt[b]`; a stable merge sort with
`cnt[b] ≤ cnt[a]` is the same ordering). -/
def featureOrderByCnt (sidx : List (List Nat)) (numSampleCol : Nat)
    (usedFeatures : List Nat) : List Nat :=
  let cnt := usedFeatures.map (fun f =>
    if f < numSampleCol then (sidx.getD f []).length else 0)
  let sortedIdx := (List.range usedFeatures.length).mergeSort
    (fun a b => decide (cnt.getD b 0 ≤ cnt.getD a 0))
  sortedIdx.map (fun i => usedFeatures.getD i 0)

/-- The sample-index fixup of `FastFeatureBundling`: replace each used,
unfiltered feature's non-zero list by its fixed-up list when that is non-empty. -/
def applyFixups (bms : List BinMapperModel) (svals : List (List ℚ))
    (numSampleCol : Nat) (sNat : Nat) (usedFeatures : List Nat)
    (sidx : List (List Nat)) : List (List Nat) :=
  usedFeatures.foldl (fun acc f =>
    if f < numSampleCol then
      let ret := fixSampleIndices (bms.getD f default) sNat (acc.getD f []) (svals.getD f [])
      if ret ≠ [] then acc.set f ret else acc
    else acc) sidx

/-- Element swap on a list at two positions, the meaning of `std::swap` on
`vector` elements (and of `vector<bool>::swap` on the flag vector). -/
def listSwap (l : List α) (i j : Nat) (d : α) : List α :=
  (l.set i (l.getD j d)).set j (l.getD i d)

/-- One step of the deterministic shuffle: draw `j ∈ [i+1, num_group)` and swap
positions `i` and `j` in both parallel lists. -/
def shuffleStep (n : Nat) (acc : List (List Nat) × List Bool × RandomModel)
    (i : Nat) : List (List Nat) × List Bool × RandomModel :=
  let p := acc.2.2.nextShort (i + 1) n
  (listSwap acc.1 i p.1 [], listSwap acc.2.1 i p.1 false, p.2)

/-- The deterministic shuffle of the chosen group list, with a fresh RNG seeded
by `num_data`. -/
def shuffleGroups (groups : List (List Nat)) (mv : List Bool) (numData : Nat) :
    List (List Nat) × List Bool :=
  let n := groups.length
  let res := (List.range (n - 1)).foldl (shuffleStep n) (groups, mv, mkRandom numData)
  (res.1, res.2.1)

/-- One `FindGroups` run of the `FastFeatureBundling` driver, over the shared
fixed-up sample indices, with the given find order. -/
def ffbRun (bms : List BinMapperModel) (sidx : List (List Nat))
    (svals : List (List ℚ)) (numSampleCol : Nat) (S : Int)
    (usedFeatures : List Nat) (numData : Nat) (useGpu : Bool)
    (order : List Nat) : FGResult :=
  findGroupsFull ⟨bms, applyFixups bms svals numSampleCol S.toNat usedFeatures sidx,
    numSampleCol, S, useGpu⟩ order numData

/-- The grouping chosen by the driver: caller order versus count-descending
order, fewer groups wins, ties keep the caller order. -/
def ffbChosen (bms : List BinMapperModel) (sidx : List (List Nat))
    (svals : List (List ℚ)) (numSampleCol : Nat) (S : Int)
    (usedFeatures : List Nat) (numData : Nat) (useGpu : Bool) :
    List (List Nat) × List Bool :=
  let r1 := ffbRun bms sidx svals numSampleCol S usedFeatures numData useGpu usedFeatures
  let r2 := ffbRun bms sidx svals numSampleCol S usedFeatures numData useGpu
    (featureOrderByCnt sidx numSampleCol usedFeatures)
  if r1.groups.length > r2.groups.length then (r2.groups, r2.multiVal)
  else (r1.groups, r1.multiVal)

/-- Translation of `FastFeatureBundling`: fix up sample indices once, run
`FindGroups` on the caller order and on the count-descending order, keep the
result with fewer groups (ties keep the caller order), and shuffle. -/
def fastFeatureBundling (bms : List BinMapperModel) (sidx : List (List Nat))
    (svals : List (List ℚ)) (numSampleCol : Nat) (S : Int)
    (usedFeatures : List Nat) (numData : Nat) (useGpu : Bool) :
    List (List Nat) × List Bool :=
  shuffleGroups (ffbChosen bms sidx svals numSampleCol S usedFeatures numData useGpu).1
    (ffbChosen bms sidx svals numSampleCol S usedFeatures numData useGpu).2 numData

/-- The non-trivial input features of `Dataset::Construct`: mapper present and
not trivial, in increasing real-index order. -/
def usedFeaturesOf (bms : List (Option BinMapperModel)) : List Nat :=
  (List.range bms.length).filter (fun i =>
    match bms.getD i none with
    | some bm => !bm.isTrivial
    | none => false)

/-- The map-filling loop of `Dataset::Construct` over the flattened group
contents: `used_feature_map_[real_fidx] = cur_fidx` with a running counter. -/
def fillUFM : List Int → List Nat → Nat → List Int
  | m, [], _ => m
  | m, f :: rest, k => fillUFM (m.set f (Int.ofNat k)) rest (k + 1)

/-- The index-map part of the `Dataset` state built by `Construct`. -/
structure ConstructResult where
  usedFeatureMap : List Int
  realFeatureIdx : List Nat
  feature2group : List Nat
  feature2subfeature : List Nat
  numFeatures : Nat
  numGroups : Nat
  groupIsMultiVal : List Bool

/-- Translation of `Dataset::Construct` down to the feature-index maps: filter
trivial features, bundle (or `NoGroup` when bundling is disabled), then fill
`used_feature_map_`, `real_feature_idx_`, `feature2group_`,
`feature2subfeature_` by one pass over the groups with a running inner index. -/
def construct (bms : List (Option BinMapperModel)) (sidx : List (List Nat))
    (svals : List (List ℚ)) (numSampleCol : Nat) (S : Int) (numData : Nat)
    (enableBundle useGpu : Bool) : ConstructResult :=
  let used := usedFeaturesOf bms
  let base : List (List Nat) × List Bool := (noGroup used, List.replicate used.length false)
  let fg := if enableBundle ∧ used ≠ [] then
      fastFeatureBundling (bms.map (fun o => o.getD default)) sidx svals
        numSampleCol S used numData useGpu
    else base
  let flat := fg.1.flatten
  { usedFeatureMap := fillUFM (List.replicate bms.length (-1 : Int)) flat 0
    realFeatureIdx := flat
    feature2group := (fg.1.enum.map (fun p => p.2.map (fun _ => p.1))).flatten
    feature2subfeature := (fg.1.map (fun fs => List.range fs.length)).flatten
    numFeatures := (fg.1.map List.length).sum
    numGroups := fg.1.length
    groupIsMultiVal := fg.2 }

/-- The part of the `Dataset` state read by `FixHistogram`: the feature-to-group
maps and the per-group bin mappers. -/
structure HistDataset where
  feature2group : List Nat
  feature2subfeature : List Nat
  groupBinMappers : List (List BinMapperModel)

/-- The bin-mapper lookup of `FixHistogram`: group, then sub-feature. -/
def featureBinMapper (ds : HistDataset) (featureIdx : Nat) : BinMapperModel :=
  (ds.groupBinMappers.getD (ds.feature2group.getD featureIdx 0) []).getD
    (ds.feature2subfeature.getD featureIdx 0) default

/-- Translation of `Dataset::FixHistogram`: when the feature's most-frequent bin
is positive, overwrite that entry with the leaf totals and then subtract every
other bin of the feature from it, in a loop over `[0, num_bin)`.  Histogram
entries are `(Σg, Σh)` pairs. -/
def fixHistogram (ds : HistDataset) (featureIdx : Nat) (sumGradient sumHessian : ℚ)
    (data : List (ℚ × ℚ)) : List (ℚ × ℚ) :=
  let bm := featureBinMapper ds featureIdx
  let mostFreqBin := bm.mostFreqBin
  if 0 < mostFreqBin then
    let numBin := bm.numBin
    let d0 := data.set mostFreqBin (sumGradient, sumHessian)
    (List.range numBin).foldl (fun d i =>
      if i ≠ mostFreqBin then
        let acc := d.getD mostFreqBin (0, 0)
        let v := d.getD i (0, 0)
        d.set mostFreqBin (acc.1 - v.1, acc.2 - v.2)
      else d) d0
  else data

/-- The fields of `Dataset` touched by `addFeaturesFrom`.  The binned feature
groups and feature-name strings are owned by external collaborators and are not
part of this state model. -/
structure DatasetAF where
  numData : Int
  numFeatures : Nat
  numTotalFeatures : Nat
  numGroups : Nat
  usedFeatureMap : List Int
  realFeatureIdx : List Int
  feature2group : List Int
  feature2subfeature : List Int
  groupFeatureStart : List Int
  groupFeatureCnt : List Int
  groupBinBoundaries : List Nat
  monotoneTypes : List Int
  featurePenalty : List ℚ
  maxBinByFeature : List Int
  deriving DecidableEq

/-- Translation of the file-local `PushVector`. -/
def pushVector (dest src : List α) : List α := dest ++ src

/-- Translation of the file-local `PushOffset`. -/
def pushOffset [Add α] (dest src : List α) (offset : α) : List α :=
  dest ++ src.map (· + offset)

/-- Translation of the file-local `PushClearIfEmpty`: concatenate when both are
non-empty, pad the empty side with the default otherwise, keep empty when both
are empty. -/
def pushClearIfEmpty (dest : List α) (destLen : Nat) (src : List α) (srcLen : Nat)
    (dflt : α) : List α :=
  if !dest.isEmpty && !src.isEmpty then dest ++ src
  else if !dest.isEmpty && src.isEmpty then dest ++ List.replicate srcLen dflt
  else if dest.isEmpty && !src.isEmpty then List.replicate destLen dflt ++ src
  else dest

/-- Translation of `Dataset::addFeaturesFrom` on the modelled state: `none`
models the thrown `runtime_error` on a row-count mismatch. -/
def addFeaturesFrom (d other : DatasetAF) : Option DatasetAF :=
  if other.numData ≠ d.numData then none
  else some
    { numData := d.numData
      numFeatures := d.numFeatures + other.numFeatures
      numTotalFeatures := d.numTotalFeatures + other.numTotalFeatures
      numGroups := d.numGroups + other.numGroups
      usedFeatureMap := d.usedFeatureMap ++ other.usedFeatureMap.map
        (fun fi => if 0 ≤ fi then fi + (d.numFeatures : Int) else -1)
      realFeatureIdx := pushOffset d.realFeatureIdx other.realFeatureIdx
        (d.numTotalFeatures : Int)
      feature2group := pushOffset d.feature2group other.feature2group (d.numGroups : Int)
      feature2subfeature := pushVector d.feature2subfeature other.feature2subfeature
      groupFeatureStart := pushOffset d.groupFeatureStart other.groupFeatureStart
        (d.numFeatures : Int)
      groupFeatureCnt := pushVector d.groupFeatureCnt other.groupFeatureCnt
      groupBinBoundaries := d.groupBinBoundaries ++
        (other.groupBinBoundaries.drop 1).map (· + d.groupBinBoundaries.getLastD 0)
      monotoneTypes := pushClearIfEmpty d.monotoneTypes d.numTotalFeatures
        other.monotoneTypes other.numTotalFeatures 0
      featurePenalty := pushClearIfEmpty d.featurePenalty d.numTotalFeatures
        other.featurePenalty other.numTotalFeatures 1
      maxBinByFeature := pushClearIfEmpty d.maxBinByFeature d.numTotalFeatures
        other.maxBinByFeature other.numTotalFeatures (-1) }

/-- The part of the `Dataset` state read by the `SaveBinaryFile` guards. -/
structure DatasetSV where
  dataFilename : String

/-- Observable outcome of `SaveBinaryFile`: which log channel fired, or the
resolved filename actually written. -/
inductive SaveOutcome where
  | warnSameFile
  | warnFileExists
  | fatalCannotWrite
  | written (filename : String)
  deriving DecidableEq

/-- Translation of the control flow of `Dataset::SaveBinaryFile`: a non-null
filename equal to the dataset's own data file logs a warning and returns
without writing; a null or empty filename resolves to `data_filename + ".bin"`;
an existing file logs a warning; a writer that fails to initialize is fatal;
otherwise the state is written.  The filesystem probe (`VirtualFileWriter`,
external) is passed as a predicate. -/
def saveBinaryFile (ds : DatasetSV) (binFilename : Option String)
    (fileExistsFn : String → Bool) (writerInitOk : Bool) : SaveOutcome :=
  match binFilename with
  | some f =>
    if f = ds.dataFilename then SaveOutcome.warnSameFile
    else
      let name := if f = "" then ds.dataFilename ++ ".bin" else f
      if fileExistsFn name then SaveOutcome.warnFileExists
      else if writerInitOk then SaveOutcome.written name
      else SaveOutcome.fatalCannotWrite
  | none =>
    let name := ds.dataFilename ++ ".bin"
    if fileExistsFn name then SaveOutcome.warnFileExists
    else if writerInitOk then SaveOutcome.written name
    else SaveOutcome.fatalCannotWrite

/-- Write `vals` into `buf` starting at offset `off` (the flat histogram buffer
layout: entry `i` holds `(Σg, Σh)` at slots `2i, 2i+1`). -/
def writeRange (buf : List ℚ) (off : Nat) (vals : List ℚ) : List ℚ :=
  (List.range vals.length).foldl (fun b k => b.set (off + k) (vals.getD k 0)) buf

/-- Add `v` to slot `i` of the flat buffer. -/
def addAt (buf : List ℚ) (i : Nat) (v : ℚ) : List ℚ :=
  buf.set i (buf.getD i 0 + v)

/-- Signature of the external `BinStorage::ConstructHistogram` collaborator
(contract only in the spec): group, optional row-index list, row range, ordered
gradients, optional ordered hessians (omitted for the constant-hessian
overload), and the output slice it accumulates into. -/
def BinHistFn : Type :=
  Nat → Option (List Nat) → Nat → Nat → List ℚ → Option (List ℚ) → List ℚ → List ℚ

/-- The part of the `Dataset` state read by `ConstructHistograms`. -/
structure HistDS where
  numData : Int
  numGroups : Nat
  groupFeatureStart : List Nat
  groupFeatureCnt : List Nat
  groupIsMultiVal : List Bool
  groupBinBoundaries : List Nat
  groupNumTotalBin : List Nat

/-- Translation of `Dataset::ConstructHistograms`.  The OpenMP loops have
disjoint writes per iteration and are modelled sequentially; `num_threads` is
the pool size queried at entry.  Returns the updated
`(hist_data, ordered_gradients, ordered_hessians, hist_buf_)`. -/
def constructHistograms (ds : HistDS) (binHist : BinHistFn) (numThreads : Nat)
    (isFeatureUsed : List Bool) (dataIndices : Option (List Nat)) (numData : Int)
    (leafIdx : Int) (gradients hessians orderedGradients orderedHessians : List ℚ)
    (isConstantHessian : Bool) (histData : Option (List ℚ)) (histBuf : List ℚ) :
    Option (List ℚ) × List ℚ × List ℚ × List ℚ :=
  if leafIdx < 0 ∨ numData < 0 ∨ histData = none then
    (histData, orderedGradients, orderedHessians, histBuf)
  else
    let hist0 := histData.getD []
    let n := numData.toNat
    let usedGroups := (List.range ds.numGroups).filter (fun g =>
      (List.range (ds.groupFeatureCnt.getD g 0)).any (fun j =>
        isFeatureUsed.getD (ds.groupFeatureStart.getD g 0 + j) false))
    let denseGroups := usedGroups.filter (fun g => !(ds.groupIsMultiVal.getD g false))
    let sparseGroups := usedGroups.filter (fun g => ds.groupIsMultiVal.getD g false)
    let subset := dataIndices.isSome ∧ numData < ds.numData
    let idxs := dataIndices.getD []
    let og := if subset then
        (List.range n).map (fun i => gradients.getD (idxs.getD i 0) 0) ++
          orderedGradients.drop n
      else orderedGradients
    let oh := if subset ∧ ¬isConstantHessian then
        (List.range n).map (fun i => hessians.getD (idxs.getD i 0) 0) ++
          orderedHessians.drop n
      else orderedHessians
    let ptrGrad := if subset then og else gradients
    let ptrHess := if subset then oh else hessians
    let passIdx : Option (List Nat) := if subset then some idxs else none
    let hist1 := denseGroups.foldl (fun h g =>
      let off := 2 * ds.groupBinBoundaries.getD g 0
      let nb := ds.groupNumTotalBin.getD g 0
      let zeroed := writeRange h off (List.replicate (2 * nb) 0)
      let slice1 := binHist g passIdx 0 n ptrGrad
        (if isConstantHessian then none else some ptrHess) (List.replicate (2 * nb) 0)
      let slice2 := if isConstantHessian then
          (List.range nb).foldl (fun s i =>
            s.set (2 * i + 1) (s.getD (2 * i + 1) 0 * hessians.getD 0 0)) slice1
        else slice1
      writeRange zeroed off slice2) hist0
    let histAndBuf := sparseGroups.foldl (fun (acc : List ℚ × List ℚ) g =>
      let nb := ds.groupNumTotalBin.getD g 0
      let buf1 := if 2 * nb * numThreads > acc.2.length then
          acc.2 ++ List.replicate (2 * nb * numThreads - acc.2.length) 0
        else acc.2
      let nPart := min numThreads ((n + 511) / 512)
      let step := (n + nPart - 1) / nPart
      let buf2 := (List.range nPart).foldl (fun b tid =>
        let s := tid * step
        let e := min (s + step) n
        let slot := binHist g passIdx s e ptrGrad
          (if isConstantHessian then none else some ptrHess) (List.replicate (2 * nb) 0)
        writeRange b (tid * nb * 2) slot) buf1
      let off := 2 * ds.groupBinBoundaries.getD g 0
      let h1 := writeRange acc.1 off (List.replicate (2 * nb) 0)
      let nBlock := min numThreads ((nb + 510) / 512)
      let perBlock := (nb + nBlock - 2) / nBlock
      let h2 := (List.range nBlock).foldl (fun hh t =>
        let s := t * perBlock + 1
        let e := min (s + perBlock) nb
        let hh1 := (List.range nPart).foldl (fun h3 tid =>
          (List.range (e - s)).foldl (fun h4 k =>
            let i := s + k
            let h5 := addAt h4 (off + 2 * i) (buf2.getD (tid * nb * 2 + 2 * i) 0)
            addAt h5 (off + 2 * i + 1) (buf2.getD (tid * nb * 2 + 2 * i + 1) 0)) h3) hh
        if isConstantHessian then
          (List.range (e - s)).foldl (fun h3 k =>
            let i := s + k
            h3.set (off + 2 * i + 1) (h3.getD (off + 2 * i + 1) 0 * hessians.getD 0 0)) hh1
        else hh1) h1
      (h2, buf2)) (hist1, histBuf)
    (some histAndBuf.1, og, oh, histAndBuf.2)

/-! Concrete inputs used to instantiate the theorems below on closed data. -/

/-- A small non-trivial bin mapper: two bins, default and most-frequent bin 0. -/
def exBm : BinMapperModel :=
  { numBin := 2, defaultBin := 0, mostFreqBin := 0, isTrivial := false,
    sparseRate := 0, valueToBin := fun _ => 1 }

/-- A trivial (constant) bin mapper. -/
def exBmTrivial : BinMapperModel := { exBm with isTrivial := true }

/-- Two features with disjoint non-zero rows 0..4 and 5..9 out of 10 samples. -/
def exSidx : List (List Nat) := [[0, 1, 2, 3, 4], [5, 6, 7, 8, 9]]

/-- Context for `FindGroups` on the two disjoint example features. -/
def exCtx : FGCtx := ⟨[exBm, exBm], exSidx, 2, 10, false⟩

/-- Bin-mapper list for the `Construct` example: features 1 (null) and 2
(trivial) are dropped, features 0 and 3 are kept. -/
def exBms : List (Option BinMapperModel) := [some exBm, none, some exBmTrivial, some exBm]

/-- Bin mapper for the `FixHistogram` example: three bins, most-frequent bin 1. -/
def exBmHist : BinMapperModel :=
  { numBin := 3, defaultBin := 1, mostFreqBin := 1, isTrivial := false,
    sparseRate := 0, valueToBin := fun _ => 0 }

/-- One-feature dataset view for the `FixHistogram` example. -/
def exHistDs : HistDataset := ⟨[0], [0], [[exBmHist]]⟩

/-- Receiver dataset of the `addFeaturesFrom` examples: one inner feature, two
total features (one trivial), no optional vectors. -/
def exDsA : DatasetAF :=
  { numData := 5, numFeatures := 1, numTotalFeatures := 2, numGroups := 1,
    usedFeatureMap := [0, -1], realFeatureIdx := [0], feature2group := [0],
    feature2subfeature := [0], groupFeatureStart := [0], groupFeatureCnt := [1],
    groupBinBoundaries := [0, 3], monotoneTypes := [], featurePenalty := [],
    maxBinByFeature := [] }

/-- Argument dataset of the `addFeaturesFrom` examples: one inner feature, one
total feature, with a monotone constraint present. -/
def exDsB : DatasetAF :=
  { numData := 5, numFeatures := 1, numTotalFeatures := 1, numGroups := 1,
    usedFeatureMap := [0], realFeatureIdx := [0], feature2group := [0],
    feature2subfeature := [0], groupFeatureStart := [0], groupFeatureCnt := [1],
    groupBinBoundaries := [0, 3], monotoneTypes := [1], featurePenalty := [],
    maxBinByFeature := [] }

/-- Variant of `exDsA` with no trivial features, for the amended length law. -/
def exDsA' : DatasetAF :=
  { exDsA with numTotalFeatures := 1, usedFeatureMap := [0] }

/-- Dataset view for the `SaveBinaryFile` example. -/
def exDsSV : DatasetSV := ⟨"train.csv"⟩

/-- Dataset view for the `ConstructHistograms` example. -/
def exHistDS : HistDS :=
  { numData := 4, numGroups := 1, groupFeatureStart := [0], groupFeatureCnt := [1],
    groupIsMultiVal := [false], groupBinBoundaries := [0], groupNumTotalBin := [3] }

/-- A vacuous external histogram collaborator for closed instantiations. -/
def exBinHist : BinHistFn := fun _ _ _ _ _ _ out => out

/-! Invariant predicates used by the theorems below. -/

/-- Length synchronization of the pass-1 state vectors. -/
def FGLen (st : FGState) : Prop :=
  st.marks.length = st.groups.length ∧ st.used.length = st.groups.length ∧
    st.total.length = st.groups.length ∧ st.nbin.length = st.groups.length

/-- Length synchronization of the pass-2 state vectors. -/
def FG2Len (st : FG2State) : Prop :=
  st.marks.length = st.groups.length ∧ st.used.length = st.groups.length ∧
    st.total.length = st.groups.length ∧ st.nbin.length = st.groups.length ∧
    st.multiVal.length = st.groups.length ∧ st.forced.length = st.groups.length

/-- Every group's conflict excess `total - used` is at most `K`. -/
def excessLe (total used : List Int) (K : Int) : Prop :=
  ∀ g : Nat, total.getD g 0 - used.getD g 0 ≤ K

/-- Every group's accumulated bin count is non-negative. -/
def nbinNonneg (nbin : List Int) : Prop :=
  ∀ g : Nat, 0 ≤ nbin.getD g 0

/-- Pass-2 conflict-budget invariant: groups not marked multi-valued, and all
forced-single-val groups, stay within the single-val conflict budget `K`. -/
def singleExcess (st : FG2State) (K : Int) : Prop :=
  (∀ g : Nat, st.multiVal.getD g false = false →
    st.total.getD g 0 - st.used.getD g 0 ≤ K) ∧
  (∀ g : Nat, st.forced.getD g false = true →
    st.total.getD g 0 - st.used.getD g 0 ≤ K)

/-- The BinMapper contract `num_bin ≥ 1`, which makes every `Δbin` non-negative. -/
def bmsDeltaNonneg (bms : List BinMapperModel) : Prop :=
  ∀ f : Nat, 0 ≤ deltaBin (bms.getD f default)

/-! Generic list lemmas used throughout the development. -/

theorem getD_set_self {α : Type _} (l : List α) (i : Nat) (h : i < l.length) (a d : α) :
    (l.set i a).getD i d = a := by
  rw [List.getD_eq_getElem _ _ (by simpa using h)]
  simp

theorem getD_set_ne {α : Type _} (l : List α) {i j : Nat} (h : i ≠ j) (a d : α) :
    (l.set i a).getD j d = l.getD j d := by
  rcases Nat.lt_or_ge j l.length with hj | hj
  · rw [List.getD_eq_getElem _ _ (by simpa using hj), List.getD_eq_getElem _ _ hj]
    exact List.getElem_set_ne h _
  · rw [List.getD_eq_default _ _ (by simpa using hj), List.getD_eq_default _ _ hj]

theorem getD_append_left {α : Type _} (l₁ l₂ : List α) {i : Nat} (h : i < l₁.length) (d : α) :
    (l₁ ++ l₂).getD i d = l₁.getD i d := by
  rw [List.getD_eq_getElem _ _ (by simp; omega), List.getD_eq_getElem _ _ h]
  exact List.getElem_append_left h

theorem getD_append_right {α : Type _} (l₁ l₂ : List α) {i : Nat} (h : l₁.length ≤ i) (d : α) :
    (l₁ ++ l₂).getD i d = l₂.getD (i - l₁.length) d := by
  rcases Nat.lt_or_ge i (l₁.length + l₂.length) with hi | hi
  · rw [List.getD_eq_getElem _ _ (by simp; omega),
      List.getD_eq_getElem _ _ (by omega)]
    rw [List.getElem_append_right h]
  · rw [List.getD_eq_default _ _ (by simp; omega), List.getD_eq_default _ _ (by omega)]

theorem getD_mem {α : Type _} (l : List α) {i : Nat} (h : i < l.length) (d : α) :
    l.getD i d ∈ l := by
  rw [List.getD_eq_getElem _ _ h]
  exact List.getElem_mem h

theorem getLastD_mem {α : Type _} (l : List α) (h : l ≠ []) (d : α) :
    l.getLastD d ∈ l := by
  rw [List.getLastD_eq_getLast? , List.getLast?_eq_getLast l h]
  exact List.getLast_mem h

theorem getD_replicate_self {α : Type _} (n : Nat) (a d : α) {i : Nat} (h : i < n) :
    (List.replicate n a).getD i d = a := by
  rw [List.getD_eq_getElem _ _ (by simpa using h)]
  simp

/-- Swapping the head with position `j` is a permutation. -/
theorem headSwap_perm {α : Type _} (l : List α) (a d : α) :
    ∀ j : Nat, j < l.length → (l.getD j d :: l.set j a).Perm (a :: l) := by
  induction l with
  | nil => intro j hj; simp at hj
  | cons b t ih =>
    intro j hj
    cases j with
    | zero =>
      simpa using List.Perm.swap a b t
    | succ j =>
      have hjt : j < t.length := by simpa using hj
      have h1 : (t.getD j d :: b :: t.set j a).Perm (b :: t.getD j d :: t.set j a) :=
        List.Perm.swap b (t.getD j d) _
      have h2 : (b :: t.getD j d :: t.set j a).Perm (b :: a :: t) :=
        (ih j hjt).cons b
      have h3 : (b :: a :: t).Perm (a :: b :: t) := List.Perm.swap a b t
      simpa using (h1.trans h2).trans h3

/-- The element swap of the deterministic shuffle is a permutation. -/
theorem listSwap_perm {α : Type _} (l : List α) (d : α) :
    ∀ i j : Nat, i < l.length → j < l.length → (listSwap l i j d).Perm l := by
  induction l with
  | nil => intro i j hi _; simp at hi
  | cons b t ih =>
    intro i j hi hj
    cases i with
    | zero =>
      cases j with
      | zero => simp [listSwap]
      | succ j =>
        have hjt : j < t.length := by simpa using hj
        have : listSwap (b :: t) 0 (j + 1) d = t.getD j d :: t.set j b := by
          simp [listSwap]
        rw [this]
        exact headSwap_perm t b d j hjt
    | succ i =>
      cases j with
      | zero =>
        have hit : i < t.length := by simpa using hi
        have : listSwap (b :: t) (i + 1) 0 d = t.getD i d :: t.set i b := by
          simp [listSwap]
        rw [this]
        exact headSwap_perm t b d i hit
      | succ j =>
        have hit : i < t.length := by simpa using hi
        have hjt : j < t.length := by simpa using hj
        have : listSwap (b :: t) (i + 1) (j + 1) d = b :: listSwap t i j d := by
          simp [listSwap]
        rw [this]
        exact (ih i j hit hjt).cons b

theorem listSwap_length {α : Type _} (l : List α) (i j : Nat) (d : α) :
    (listSwap l i j d).length = l.length := by
  simp [listSwap]

/-- Setting the same position in two zipped lists sets the zip. -/
theorem zip_set {α β : Type _} :
    ∀ (a : List α) (b : List β) (i : Nat) (x : α) (y : β),
      (a.set i x).zip (b.set i y) = (a.zip b).set i (x, y) := by
  intro a
  induction a with
  | nil => intro b i x y; simp
  | cons ah at' ih =>
    intro b i x y
    cases b with
    | nil => simp
    | cons bh bt =>
      cases i with
      | zero => simp
      | succ i => simp [ih]

theorem zip_getD {α β : Type _} (a : List α) (b : List β) (h : a.length = b.length)
    {j : Nat} (hj : j < a.length) (da : α) (db : β) :
    (a.zip b).getD j (da, db) = (a.getD j da, b.getD j db) := by
  have hz : j < (a.zip b).length := by simp [List.length_zip]; omega
  rw [List.getD_eq_getElem _ _ hz, List.getD_eq_getElem _ _ hj,
    List.getD_eq_getElem _ _ (by omega)]
  exact List.getElem_zip

/-- Swapping the same two positions in two parallel lists swaps the zip. -/
theorem listSwap_zip {α β : Type _} (a : List α) (b : List β) (h : a.length = b.length)
    {i j : Nat} (hi : i < a.length) (hj : j < a.length) (da : α) (db : β) :
    (listSwap a i j da).zip (listSwap b i j db) = listSwap (a.zip b) i j (da, db) := by
  unfold listSwap
  rw [zip_set, zip_set, zip_getD a b h hj da db, zip_getD a b h hi da db]

/-- Appending a feature to group `g` extends the flattened contents by that
feature, up to permutation. -/
theorem flatten_set_append_perm {α : Type _} (l : List (List α)) (f : α) {g : Nat}
    (hg : g < l.length) :
    ((l.set g (l.getD g [] ++ [f])).flatten).Perm (l.flatten ++ [f]) := by
  induction l generalizing g with
  | nil => simp at hg
  | cons h t ih =>
    cases g with
    | zero =>
      simp only [List.set_cons_zero, List.getD_cons_zero, List.flatten_cons]
      have heq : (h ++ [f]) ++ t.flatten = h ++ ([f] ++ t.flatten) := by simp
      rw [heq]
      have hperm : (h ++ ([f] ++ t.flatten)).Perm (h ++ (t.flatten ++ [f])) :=
        List.Perm.append_left h List.perm_append_comm
      simpa [List.append_assoc] using hperm
    | succ g =>
      have hgt : g < t.length := by simpa using hg
      simp only [List.set_cons_succ, List.getD_cons_succ, List.flatten_cons]
      have := (ih hgt).append_left h
      simpa [List.append_assoc] using this

/-- Elements returned by the modelled `Random::Sample` are below the bound. -/
theorem sample_lt (r : RandomModel) (n k : Nat) :
    ∀ x ∈ (r.sample n k).1, x < n := by
  unfold RandomModel.sample
  suffices h : ∀ (l : List Nat) (acc : List Nat × Nat × RandomModel),
      (∀ x ∈ acc.1, x < n) → (∀ x ∈ l, x < n) →
      ∀ x ∈ (l.foldl (fun acc i =>
        let (chosen, need, rng) := acc
        if need = 0 then acc
        else
          let p := rng.randInt16
          if p.1 % (n - i) < need then (chosen ++ [i], need - 1, p.2)
          else (chosen, need, p.2)) acc).1, x < n by
    intro x hx
    refine h (List.range n) ([], min n k, r) (by simp) (by simp) x ?_
    simpa using hx
  intro l
  induction l with
  | nil => intro acc hacc _ x hx; exact hacc x hx
  | cons i t ih =>
    intro acc hacc hl x hx
    simp only [List.foldl_cons] at hx
    refine ih _ ?_ (fun y hy => hl y (List.mem_cons_of_mem _ hy)) x hx
    obtain ⟨chosen, need, rng⟩ := acc
    by_cases hneed : need = 0
    · simpa [hneed] using hacc
    · by_cases hlt : (rng.randInt16).1 % (n - i) < need
      · intro y hy
        simp only [hneed, if_false, hlt, if_true] at hy
        rcases List.mem_append.mp hy with hy | hy
        · exact hacc y hy
        · have hyi : y = i := by simpa using hy
          rw [hyi]
          exact hl i (List.mem_cons_self i t)
      · intro y hy
        simp only [hneed, if_false, hlt] at hy
        exact hacc y hy

/-- Every searched group is an available group. -/
theorem pickSearchGroups_mem (avail : List Nat) (rng : RandomModel) :
    ∀ g ∈ (pickSearchGroups avail rng).1, g ∈ avail := by
  unfold pickSearchGroups
  by_cases h : avail = []
  · simp [h]
  · simp only [h, if_false]
    intro g hg
    rcases List.mem_cons.mp hg with hg | hg
    · subst hg; exact getLastD_mem avail h 0
    · obtain ⟨i, hi, hgi⟩ := List.mem_map.mp hg
      have hilt : i < avail.length - 1 := sample_lt _ _ _ i hi
      subst hgi
      exact getD_mem avail (by omega) 0

/-- Soundness of `GetConfilctCount`: a non-negative result is below `max_cnt`
when at least one index was scanned, and equals the accumulator when none was. -/
theorem getConfilctCountAux_spec (mark : List Nat) (maxCnt : Int) (mfc : Nat) :
    ∀ (inds : List Nat) (r : Int), 0 ≤ r →
      getConfilctCountAux mark maxCnt mfc inds r = -1 ∨
        (0 ≤ getConfilctCountAux mark maxCnt mfc inds r ∧
          (inds = [] → getConfilctCountAux mark maxCnt mfc inds r = r) ∧
          (inds ≠ [] → getConfilctCountAux mark maxCnt mfc inds r < maxCnt)) := by
  intro inds
  induction inds with
  | nil =>
    intro r hr
    right
    refine ⟨by simpa [getConfilctCountAux] using hr, fun _ => by simp [getConfilctCountAux], ?_⟩
    intro h; exact absurd rfl h
  | cons i t ih =>
    intro r hr
    simp only [getConfilctCountAux]
    by_cases h1 : mark.getD i 0 ≠ 0 ∧ mark.getD i 0 + 1 > mfc
    · rw [if_pos h1]; left; rfl
    · rw [if_neg h1]
      set r' : Int := if mark.getD i 0 ≠ 0 then r + 1 else r with hr'
      have hr'0 : 0 ≤ r' := by
        rw [hr']; split <;> omega
      by_cases h2 : r' ≥ maxCnt
      · rw [if_pos h2]; left; rfl
      · rw [if_neg h2]
        rcases ih r' hr'0 with hc | ⟨hc0, hce, hcn⟩
        · left; exact hc
        · right
          refine ⟨hc0, by simp, fun _ => ?_⟩
          by_cases ht : t = []
          · rw [hce ht]; omega
          · exact hcn ht

theorem getConfilctCount_spec (mark inds : List Nat) (maxCnt : Int) (mfc : Nat) :
    getConfilctCount mark inds maxCnt mfc = -1 ∨
      (0 ≤ getConfilctCount mark inds maxCnt mfc ∧
        (inds = [] → getConfilctCount mark inds maxCnt mfc = 0) ∧
        (inds ≠ [] → getConfilctCount mark inds maxCnt mfc < maxCnt)) :=
  getConfilctCountAux_spec mark maxCnt mfc inds 0 le_rfl

/-- Mapping positional `getD` over the index range reproduces the list. -/
theorem map_getD_range {α : Type _} (l : List α) (d : α) :
    (List.range l.length).map (fun i => l.getD i d) = l := by
  apply List.ext_getElem
  · simp
  · intro i h1 h2
    simp only [List.getElem_map, List.getElem_range]
    exact List.getD_eq_getElem l d h2

/-- The BinMapper contract `num_bin ≥ 1` makes every `Δbin` non-negative (the
default mapper used out of range has `Δbin = 0`). -/
theorem bmsDeltaNonneg_of_numBin (bms : List BinMapperModel)
    (h : ∀ bm ∈ bms, 1 ≤ bm.numBin) : bmsDeltaNonneg bms := by
  intro f
  rcases Nat.lt_or_ge f bms.length with hf | hf
  · have hmem : bms.getD f default ∈ bms := getD_mem bms hf default
    have h1 : 1 ≤ (bms.getD f default).numBin := h _ hmem
    unfold deltaBin
    have : (1 : Int) ≤ ((bms.getD f default).numBin : Int) := by exact_mod_cast h1
    split <;> omega
  · rw [List.getD_eq_default _ _ hf]
    unfold deltaBin
    norm_num [default]

/-! Pass-1 lemmas. -/

/-- Soundness of the pass-1 candidate scan: an accepted group comes from the
searched list, with a valid conflict count within its remaining budget. -/
theorem pass1Select_spec (marks : List (List Nat)) (used total : List Int) (K : Int)
    (filtered : Bool) (cnz : Int) (inds : List Nat) :
    ∀ (l : List Nat) (g : Nat) (cnt : Int),
      pass1Select marks used total K filtered cnz inds l = some (g, cnt) →
      g ∈ l ∧ 0 ≤ cnt ∧ cnt ≤ K - total.getD g 0 + used.getD g 0 := by
  intro l
  induction l with
  | nil => intro g cnt h; simp [pass1Select] at h
  | cons a t ih =>
    intro g cnt h
    simp only [pass1Select] at h
    split at h
    · split at h
      · rename_i hcond
        rw [Option.some.injEq, Prod.mk.injEq] at h
        obtain ⟨hag, hcnt⟩ := h
        subst hag; subst hcnt
        exact ⟨List.mem_cons_self _ _, hcond.1, hcond.2.1⟩
      · obtain ⟨hm, hc⟩ := ih g cnt h
        exact ⟨List.mem_cons_of_mem _ hm, hc⟩
    · split at h
      · rename_i hcond
        rw [Option.some.injEq, Prod.mk.injEq] at h
        obtain ⟨hag, hcnt⟩ := h
        subst hag; subst hcnt
        exact ⟨List.mem_cons_self _ _, hcond.1, hcond.2.1⟩
      · obtain ⟨hm, hc⟩ := ih g cnt h
        exact ⟨List.mem_cons_of_mem _ hm, hc⟩

/-- Soundness of the full pass-1 selection: an accepted group is a valid index
with a valid conflict count. -/
theorem pass1SelResult_spec (c : FGCtx) (st : FGState) (fidx : Nat) (g : Nat) (cnt : Int)
    (h : (pass1SelResult c st fidx).1 = some (g, cnt)) :
    g < st.groups.length ∧ 0 ≤ cnt ∧
      cnt ≤ c.K - st.total.getD g 0 + st.used.getD g 0 := by
  unfold pass1SelResult at h
  obtain ⟨hmem, hc⟩ := pass1Select_spec _ _ _ _ _ _ _ _ _ _ h
  have havail : g ∈ pass1Avail c st fidx := pickSearchGroups_mem _ _ g hmem
  unfold pass1Avail at havail
  have := List.mem_range.mp (List.mem_of_mem_filter havail)
  exact ⟨this, hc⟩

/-- A pass-1 iteration extends the flattened group contents by exactly the
processed feature, up to permutation. -/
theorem pass1Step_flatten (c : FGCtx) (st : FGState) (f : Nat) :
    ((pass1Step c st f).groups.flatten).Perm (st.groups.flatten ++ [f]) := by
  rcases hsel : (pass1SelResult c st f).1 with _ | ⟨g, cnt⟩
  · simp only [pass1Step, hsel]
    simp [List.flatten_append]
  · have hg := (pass1SelResult_spec c st f g cnt hsel).1
    simp only [pass1Step, hsel]
    exact flatten_set_append_perm st.groups f hg

/-- A pass-1 iteration keeps the state vectors in sync. -/
theorem pass1Step_len (c : FGCtx) (st : FGState) (f : Nat) (h : FGLen st) :
    FGLen (pass1Step c st f) := by
  obtain ⟨h1, h2, h3, h4⟩ := h
  rcases hsel : (pass1SelResult c st f).1 with _ | ⟨g, cnt⟩
  · simp only [pass1Step, hsel]
    refine ⟨?_, ?_, ?_, ?_⟩ <;> simp [h1, h2, h3, h4]
  · simp only [pass1Step, hsel]
    refine ⟨?_, ?_, ?_, ?_⟩ <;> (try split) <;> simp [h1, h2, h3, h4]

/-- A pass-1 iteration preserves the conflict-excess bound. -/
theorem pass1Step_excess (c : FGCtx) (st : FGState) (f : Nat) (hK : 0 ≤ c.K)
    (hlen : FGLen st) (h : excessLe st.total st.used c.K) :
    excessLe (pass1Step c st f).total (pass1Step c st f).used c.K := by
  obtain ⟨h1, h2, h3, h4⟩ := hlen
  rcases hsel : (pass1SelResult c st f).1 with _ | ⟨g, cnt⟩
  · simp only [pass1Step, hsel]
    intro g'
    rcases Nat.lt_trichotomy g' st.groups.length with hlt | heq | hgt
    · rw [getD_append_left _ _ (by omega), getD_append_left _ _ (by omega)]
      exact h g'
    · rw [getD_append_right _ _ (by omega), getD_append_right _ _ (by omega)]
      simp only [h2, h3, heq, Nat.sub_self, List.getD_cons_zero]
      omega
    · rw [List.getD_eq_default _ _ (by simp; omega), List.getD_eq_default _ _ (by simp; omega)]
      omega
  · obtain ⟨hg, hc0, hcb⟩ := pass1SelResult_spec c st f g cnt hsel
    simp only [pass1Step, hsel]
    intro g'
    by_cases hgg : g' = g
    · subst hgg
      rw [getD_set_self _ _ (by omega), getD_set_self _ _ (by omega)]
      have := h g'
      omega
    · rw [getD_set_ne _ (fun hx => hgg hx.symm), getD_set_ne _ (fun hx => hgg hx.symm)]
      exact h g'

/-- A pass-1 iteration preserves non-negativity of the bin counters. -/
theorem pass1Step_nbin (c : FGCtx) (st : FGState) (f : Nat)
    (hbm : bmsDeltaNonneg c.bms) (hlen : FGLen st) (h : nbinNonneg st.nbin) :
    nbinNonneg (pass1Step c st f).nbin := by
  obtain ⟨h1, h2, h3, h4⟩ := hlen
  have hdb := hbm f
  rcases hsel : (pass1SelResult c st f).1 with _ | ⟨g, cnt⟩
  · simp only [pass1Step, hsel]
    intro g'
    rcases Nat.lt_trichotomy g' st.nbin.length with hlt | heq | hgt
    · rw [getD_append_left _ _ (by omega)]
      exact h g'
    · rw [getD_append_right _ _ (by omega)]
      simp only [heq, Nat.sub_self]
      have := h g'
      simp only [List.getD_cons_zero]
      omega
    · rw [List.getD_eq_default _ _ (by simp; omega)]
  · obtain ⟨hg, _, _⟩ := pass1SelResult_spec c st f g cnt hsel
    simp only [pass1Step, hsel]
    intro g'
    by_cases hgg : g' = g
    · subst hgg
      rw [getD_set_self _ _ (by omega)]
      have := h g'
      omega
    · rw [getD_set_ne _ (fun hx => hgg hx.symm)]
      exact h g'

/-- The pass-1 fold over the find order: permutation accounting of the
flattened groups. -/
theorem pass1_fold_flatten (c : FGCtx) :
    ∀ (order : List Nat) (st : FGState),
      ((order.foldl (pass1Step c) st).groups.flatten).Perm (st.groups.flatten ++ order) := by
  intro order
  induction order with
  | nil => intro st; simp
  | cons f t ih =>
    intro st
    simp only [List.foldl_cons]
    refine (ih (pass1Step c st f)).trans ?_
    refine ((pass1Step_flatten c st f).append_right t).trans ?_
    exact List.Perm.of_eq (by simp)

/-- The pass-1 fold preserves the length, excess, and bin-count invariants. -/
theorem pass1_fold_inv (c : FGCtx) (hK : 0 ≤ c.K) (hbm : bmsDeltaNonneg c.bms) :
    ∀ (order : List Nat) (st : FGState),
      FGLen st → excessLe st.total st.used c.K → nbinNonneg st.nbin →
      FGLen (order.foldl (pass1Step c) st) ∧
        excessLe (order.foldl (pass1Step c) st).total
          (order.foldl (pass1Step c) st).used c.K ∧
        nbinNonneg (order.foldl (pass1Step c) st).nbin := by
  intro order
  induction order with
  | nil => intro st hh1 hh2 hh3; exact ⟨hh1, hh2, hh3⟩
  | cons f t ih =>
    intro st hh1 hh2 hh3
    simp only [List.foldl_cons]
    exact ih (pass1Step c st f) (pass1Step_len c st f hh1)
      (pass1Step_excess c st f hK hh1 hh2) (pass1Step_nbin c st f hbm hh1 hh3)

/-! Lemmas about the split between the two passes. -/

/-- One split step moves group `gid`'s contents either into the kept groups or
into the second-round feature list. -/
theorem splitStep_flatten (p1 : FGState) (S : Int) (acc : SplitAcc) (gid : Nat) :
    (((splitStep p1 S acc gid).groups.flatten ++ (splitStep p1 S acc gid).second)).Perm
      ((acc.groups.flatten ++ acc.second) ++ p1.groups.getD gid []) := by
  unfold splitStep
  split
  · simp only [List.flatten_append, List.flatten_cons, List.flatten_nil, List.append_nil,
      List.append_assoc]
    exact List.Perm.append_left _ List.perm_append_comm
  · exact List.Perm.of_eq (by simp)

theorem splitFold_flatten (p1 : FGState) (S : Int) :
    ∀ (gids : List Nat) (acc : SplitAcc),
      ((gids.foldl (splitStep p1 S) acc).groups.flatten ++
        (gids.foldl (splitStep p1 S) acc).second).Perm
      ((acc.groups.flatten ++ acc.second) ++
        (gids.map (fun gid => p1.groups.getD gid [])).flatten) := by
  intro gids
  induction gids with
  | nil => intro acc; simp
  | cons gid t ih =>
    intro acc
    simp only [List.foldl_cons]
    refine (ih (splitStep p1 S acc gid)).trans ?_
    refine ((splitStep_flatten p1 S acc gid).append_right _).trans ?_
    exact List.Perm.of_eq (by simp [List.flatten_cons])

/-- One split step keeps the accumulator vectors in sync and within bounds. -/
theorem splitStep_inv (p1 : FGState) (S K : Int)
    (hex : excessLe p1.total p1.used K) (hnb : nbinNonneg p1.nbin)
    (acc : SplitAcc) (gid : Nat)
    (l1 : acc.marks.length = acc.groups.length)
    (l2 : acc.used.length = acc.groups.length)
    (l3 : acc.total.length = acc.groups.length)
    (l4 : acc.nbin.length = acc.groups.length)
    (aex : excessLe acc.total acc.used K) (anb : nbinNonneg acc.nbin) :
    (splitStep p1 S acc gid).marks.length = (splitStep p1 S acc gid).groups.length ∧
    (splitStep p1 S acc gid).used.length = (splitStep p1 S acc gid).groups.length ∧
    (splitStep p1 S acc gid).total.length = (splitStep p1 S acc gid).groups.length ∧
    (splitStep p1 S acc gid).nbin.length = (splitStep p1 S acc gid).groups.length ∧
    excessLe (splitStep p1 S acc gid).total (splitStep p1 S acc gid).used K ∧
    nbinNonneg (splitStep p1 S acc gid).nbin := by
  unfold splitStep
  split
  · refine ⟨by simp [l1], by simp [l2], by simp [l3], by simp [l4], ?_, ?_⟩
    · intro g'
      rcases Nat.lt_trichotomy g' acc.total.length with hlt | heq | hgt
      · rw [getD_append_left _ _ (by omega), getD_append_left _ _ (by omega)]
        exact aex g'
      · rw [getD_append_right _ _ (by omega), getD_append_right _ _ (by omega)]
        simp only [l2, l3, heq, Nat.sub_self, List.getD_cons_zero]
        exact hex gid
      · rw [List.getD_eq_default _ _ (by simp; omega),
          List.getD_eq_default _ _ (by simp; omega)]
        have := hex (p1.total.length + p1.used.length)
        have h0 : p1.total.getD (p1.total.length + p1.used.length) 0 = 0 :=
          List.getD_eq_default _ _ (by omega)
        have h0' : p1.used.getD (p1.total.length + p1.used.length) 0 = 0 :=
          List.getD_eq_default _ _ (by omega)
        rw [h0, h0'] at this
        omega
    · intro g'
      rcases Nat.lt_trichotomy g' acc.nbin.length with hlt | heq | hgt
      · rw [getD_append_left _ _ (by omega)]
        exact anb g'
      · rw [getD_append_right _ _ (by omega)]
        simp only [heq, Nat.sub_self, List.getD_cons_zero]
        exact hnb gid
      · rw [List.getD_eq_default _ _ (by simp; omega)]
  · exact ⟨l1, l2, l3, l4, aex, anb⟩

theorem splitFold_inv (p1 : FGState) (S K : Int)
    (hex : excessLe p1.total p1.used K) (hnb : nbinNonneg p1.nbin) :
    ∀ (gids : List Nat) (acc : SplitAcc),
      acc.marks.length = acc.groups.length →
      acc.used.length = acc.groups.length →
      acc.total.length = acc.groups.length →
      acc.nbin.length = acc.groups.length →
      excessLe acc.total acc.used K → nbinNonneg acc.nbin →
      (gids.foldl (splitStep p1 S) acc).marks.length =
          (gids.foldl (splitStep p1 S) acc).groups.length ∧
      (gids.foldl (splitStep p1 S) acc).used.length =
          (gids.foldl (splitStep p1 S) acc).groups.length ∧
      (gids.foldl (splitStep p1 S) acc).total.length =
          (gids.foldl (splitStep p1 S) acc).groups.length ∧
      (gids.foldl (splitStep p1 S) acc).nbin.length =
          (gids.foldl (splitStep p1 S) acc).groups.length ∧
      excessLe (gids.foldl (splitStep p1 S) acc).total
        (gids.foldl (splitStep p1 S) acc).used K ∧
      nbinNonneg (gids.foldl (splitStep p1 S) acc).nbin := by
  intro gids
  induction gids with
  | nil => intro acc l1 l2 l3 l4 aex anb; exact ⟨l1, l2, l3, l4, aex, anb⟩
  | cons gid t ih =>
    intro acc l1 l2 l3 l4 aex anb
    simp only [List.foldl_cons]
    obtain ⟨m1, m2, m3, m4, m5, m6⟩ := splitStep_inv p1 S K hex hnb acc gid l1 l2 l3 l4 aex anb
    exact ih _ m1 m2 m3 m4 m5 m6

/-- The kept groups plus the dissolved features are the pass-1 contents. -/
theorem splitGroups_flatten (S : Int) (p1 : FGState) :
    (((splitGroups S p1).1.groups.flatten ++ (splitGroups S p1).2)).Perm
      p1.groups.flatten := by
  unfold splitGroups
  have h := splitFold_flatten p1 S (List.range p1.groups.length) ⟨[], [], [], [], [], []⟩
  simp only [List.flatten_nil, List.append_nil, List.nil_append] at h
  have h2 : (List.range p1.groups.length).map (fun gid => p1.groups.getD gid []) =
      p1.groups := map_getD_range p1.groups []
  rw [h2] at h
  exact h

/-- The split output satisfies all pass-2 entry invariants. -/
theorem splitGroups_inv (S : Int) (p1 : FGState) (K : Int)
    (hex : excessLe p1.total p1.used K) (hnb : nbinNonneg p1.nbin) :
    FG2Len (splitGroups S p1).1 ∧
      excessLe (splitGroups S p1).1.total (splitGroups S p1).1.used K ∧
      nbinNonneg (splitGroups S p1).1.nbin ∧ singleExcess (splitGroups S p1).1 K := by
  have hK : 0 ≤ K := by
    have := hex (p1.total.length + p1.used.length)
    have h0 : p1.total.getD (p1.total.length + p1.used.length) 0 = 0 :=
      List.getD_eq_default _ _ (by omega)
    have h0' : p1.used.getD (p1.total.length + p1.used.length) 0 = 0 :=
      List.getD_eq_default _ _ (by omega)
    rw [h0, h0'] at this
    omega
  have h := splitFold_inv p1 S K hex hnb (List.range p1.groups.length)
    ⟨[], [], [], [], [], []⟩ rfl rfl rfl rfl
    (by intro g; simpa using hK)
    (by intro g; simp [List.getD])
  obtain ⟨m1, m2, m3, m4, m5, m6⟩ := h
  unfold splitGroups
  refine ⟨⟨m1, m2, m3, m4, by simp, by simp⟩, m5, m6, ?_, ?_⟩
  · intro g _
    exact m5 g
  · intro g _
    exact m5 g

/-! Pass-2 lemmas. -/

theorem K_nonneg (c : FGCtx) (hS : 0 ≤ c.S) : 0 ≤ c.K :=
  Int.ediv_nonneg hS (by norm_num)

theorem p2Bound_le (S K : Int) (used total : List Int) (forced : List Bool) (g : Nat) :
    p2Bound S K used total forced g ≤ S := by
  unfold p2Bound
  split
  · exact min_le_left _ _
  · exact le_rfl

/-- A pass-2 conflict count is negative, or zero, or below its `rest_max_cnt`. -/
theorem p2Cnt_spec (marks : List (List Nat)) (filtered : Bool) (inds : List Nat)
    (restMax : Int) (g : Nat) :
    p2Cnt marks filtered inds restMax g < 0 ∨
      (0 ≤ p2Cnt marks filtered inds restMax g ∧
        (p2Cnt marks filtered inds restMax g = 0 ∨
          p2Cnt marks filtered inds restMax g < restMax)) := by
  unfold p2Cnt
  by_cases hf : filtered = true
  · simp [hf]
  · simp only [hf, if_false]
    rcases getConfilctCount_spec (marks.getD g []) inds restMax 64 with hgc | ⟨h0, he, hn⟩
    · left; rw [hgc]; norm_num
    · right
      refine ⟨h0, ?_⟩
      by_cases hie : inds = []
      · exact Or.inl (he hie)
      · exact Or.inr (hn hie)

/-- The pass-2 scan only moves the best group to a member of the scanned list. -/
theorem pass2Select_mem (S K : Int) (marks : List (List Nat)) (used total : List Int)
    (forced : List Bool) (filtered : Bool) (inds : List Nat) :
    ∀ (l : List Nat) (bg0 c0 : Int) (ok0 : Bool),
      (pass2Select S K marks used total forced filtered inds l bg0 c0 ok0).1 = bg0 ∨
        (0 ≤ (pass2Select S K marks used total forced filtered inds l bg0 c0 ok0).1 ∧
          (pass2Select S K marks used total forced filtered inds l bg0 c0 ok0).1.toNat ∈ l) := by
  intro l
  induction l with
  | nil => intro bg0 c0 ok0; left; rfl
  | cons g rest ih =>
    intro bg0 c0 ok0
    simp only [pass2Select]
    split
    · rcases ih bg0 c0 ok0 with h | ⟨h1, h2⟩
      · left; exact h
      · right; exact ⟨h1, List.mem_cons_of_mem _ h2⟩
    · split
      · split
        · right; simp
        · left; rfl
      · split
        · rcases ih _ _ _ with h | ⟨h1, h2⟩
          · rw [h]; right; simp
          · right; exact ⟨h1, List.mem_cons_of_mem _ h2⟩
        · rcases ih _ _ _ with h | ⟨h1, h2⟩
          · rw [h]; left; rfl
          · right; exact ⟨h1, List.mem_cons_of_mem _ h2⟩

/-- Full soundness of the pass-2 scan: the tracked best stays either the
sentinel pair or a valid candidate, and the tie-break observation stays true. -/
theorem pass2Select_spec (S K : Int) (marks : List (List Nat)) (used total : List Int)
    (forced : List Bool) (filtered : Bool) (inds : List Nat) (hS : 0 ≤ S) :
    ∀ (l : List Nat) (bg0 c0 : Int) (ok0 : Bool),
      ((bg0 = -1 ∧ c0 = S + 1) ∨
        (0 ≤ bg0 ∧ p2Valid S K used total forced bg0.toNat c0)) →
      (((pass2Select S K marks used total forced filtered inds l bg0 c0 ok0).1 = -1 ∧
          (pass2Select S K marks used total forced filtered inds l bg0 c0 ok0).2.1 = S + 1) ∨
        (0 ≤ (pass2Select S K marks used total forced filtered inds l bg0 c0 ok0).1 ∧
          p2Valid S K used total forced
            (pass2Select S K marks used total forced filtered inds l bg0 c0 ok0).1.toNat
            (pass2Select S K marks used total forced filtered inds l bg0 c0 ok0).2.1)) ∧
      (ok0 = true →
        (pass2Select S K marks used total forced filtered inds l bg0 c0 ok0).2.2 = true) := by
  intro l
  induction l with
  | nil => intro bg0 c0 ok0 hinv; exact ⟨hinv, fun h => h⟩
  | cons g rest ih =>
    intro bg0 c0 ok0 hinv
    simp only [pass2Select]
    split
    · exact ih bg0 c0 ok0 hinv
    · rename_i hcnt
      set cnt : Int := p2Cnt marks filtered inds (p2Bound S K used total forced g) g
        with hcntdef
      have hcv : 0 ≤ cnt ∧ cnt ≤ S ∧ (cnt = 0 ∨ cnt < p2Bound S K used total forced g) := by
        rcases p2Cnt_spec marks filtered inds (p2Bound S K used total forced g) g with
          hneg | ⟨h0, hz⟩
        · exact absurd hneg hcnt
        · refine ⟨h0, ?_, hz⟩
          rcases hz with hz | hz
          · omega
          · exact le_of_lt (lt_of_lt_of_le hz (p2Bound_le S K used total forced g))
      obtain ⟨hc0, hcS, hcb⟩ := hcv
      have hok' : ok0 = true →
          (ok0 && (!(decide (¬cnt < c0 ∧ cnt = c0 ∧ forced.getD g false = false)) ||
            decide (0 ≤ bg0))) = true := by
        intro hok
        rw [hok, Bool.true_and, Bool.or_eq_true]
        by_cases htie : ¬cnt < c0 ∧ cnt = c0 ∧ forced.getD g false = false
        · right
          rcases hinv with ⟨_, hc0eq⟩ | ⟨hbg, _⟩
          · exfalso
            obtain ⟨h1, h2, _⟩ := htie
            rw [hc0eq] at h2
            omega
          · simpa using hbg
        · left
          simp only [Bool.not_eq_true', decide_eq_false_iff_not]
          exact htie
      have hinv' : ∀ cond : Prop, [inst : Decidable cond] →
          (((if cond then (g : Int) else bg0) = -1 ∧ (if cond then cnt else c0) = S + 1) ∨
            (0 ≤ (if cond then (g : Int) else bg0) ∧
              p2Valid S K used total forced (if cond then (g : Int) else bg0).toNat
                (if cond then cnt else c0))) := by
        intro cond inst
        by_cases hcond : cond
        · rw [if_pos hcond, if_pos hcond]
          right
          refine ⟨by positivity, ?_⟩
          simpa [p2Valid] using ⟨hc0, hcS, hcb⟩
        · rw [if_neg hcond, if_neg hcond]
          exact hinv
      split
      · exact ⟨hinv' (cnt < c0 ∨ (cnt = c0 ∧ (forced.getD g false = true ∨
          totalAt total bg0 > total.getD g 0))), hok'⟩
      · obtain ⟨hmain, hrest⟩ := ih _ _ _ (hinv' (cnt < c0 ∨ (cnt = c0 ∧
          (forced.getD g false = true ∨ totalAt total bg0 > total.getD g 0))))
        exact ⟨hmain, fun hok => hrest (hok' hok)⟩

/-- A non-sentinel pass-2 selection picks an available group. -/
theorem pass2SelResult_mem (c : FGCtx) (st : FG2State) (fidx : Nat)
    (h : 0 ≤ (pass2SelResult c st fidx).1.1) :
    (pass2SelResult c st fidx).1.1.toNat ∈ pass2Avail c st fidx := by
  unfold pass2SelResult at h ⊢
  rcases pass2Select_mem c.S c.K st.marks st.used st.total st.forced _ _
      (pickSearchGroups (pass2Avail c st fidx) st.rng).1 (-1) (c.S + 1) true with
    heq | ⟨_, hmem⟩
  · rw [heq] at h
    norm_num at h
  · exact pickSearchGroups_mem _ _ _ hmem

/-- Full soundness of the pass-2 selection result. -/
theorem pass2SelResult_spec (c : FGCtx) (st : FG2State) (fidx : Nat) (hS : 0 ≤ c.S) :
    ((pass2SelResult c st fidx).1.1 = -1 ∨
      (0 ≤ (pass2SelResult c st fidx).1.1 ∧
        p2Valid c.S c.K st.used st.total st.forced (pass2SelResult c st fidx).1.1.toNat
          (pass2SelResult c st fidx).1.2.1)) ∧
    (pass2SelResult c st fidx).1.2.2 = true := by
  unfold pass2SelResult
  obtain ⟨hmain, hok⟩ := pass2Select_spec c.S c.K st.marks st.used st.total st.forced _ _
    hS (pickSearchGroups (pass2Avail c st fidx) st.rng).1 (-1) (c.S + 1) true
    (Or.inl ⟨rfl, rfl⟩)
  refine ⟨?_, hok rfl⟩
  rcases hmain with ⟨heq, _⟩ | ⟨hbg, hval⟩
  · exact Or.inl heq
  · exact Or.inr ⟨hbg, hval⟩

/-- Available pass-2 groups are valid indices satisfying the multi-val bin cap. -/
theorem pass2Avail_spec (c : FGCtx) (st : FG2State) (fidx g : Nat)
    (h : g ∈ pass2Avail c st fidx) :
    g < st.groups.length ∧
      (st.multiVal.getD g false = true →
        st.nbin.getD g 0 + (st.nbin.getD g 0 + deltaBin (c.bms.getD fidx default)) ≤ 16384) := by
  unfold pass2Avail at h
  have hmem := List.mem_range.mp (List.mem_of_mem_filter h)
  refine ⟨hmem, fun hmv => ?_⟩
  have hcond := List.of_mem_filter h
  simp only [Bool.and_eq_true, Bool.not_eq_true', Bool.and_eq_false_iff,
    decide_eq_false_iff_not, decide_eq_true_eq, not_lt] at hcond
  rcases hcond.1.1 with hc | hc
  · rw [hmv] at hc
    exact absurd hc (by simp)
  · exact hc

/-- A pass-2 iteration extends the flattened group contents by exactly the
processed feature, up to permutation. -/
theorem pass2Step_flatten (c : FGCtx) (st : FG2State) (f : Nat) :
    ((pass2Step c st f).groups.flatten).Perm (st.groups.flatten ++ [f]) := by
  by_cases hpos : 0 ≤ (pass2SelResult c st f).1.1
  · have hmem := pass2SelResult_mem c st f hpos
    have hlt := (pass2Avail_spec c st f _ hmem).1
    simp only [pass2Step, if_pos hpos]
    exact flatten_set_append_perm st.groups f hlt
  · simp only [pass2Step, if_neg hpos]
    simp [List.flatten_append]

theorem pass2_fold_flatten (c : FGCtx) :
    ∀ (order : List Nat) (st : FG2State),
      ((order.foldl (pass2Step c) st).groups.flatten).Perm (st.groups.flatten ++ order) := by
  intro order
  induction order with
  | nil => intro st; simp
  | cons f t ih =>
    intro st
    simp only [List.foldl_cons]
    refine (ih (pass2Step c st f)).trans ?_
    refine ((pass2Step_flatten c st f).append_right t).trans ?_
    exact List.Perm.of_eq (by simp)

/-- A pass-2 iteration preserves the state invariants and the two observation
flags. -/
theorem pass2Step_inv (c : FGCtx) (st : FG2State) (f : Nat) (hS : 0 ≤ c.S)
    (hbm : bmsDeltaNonneg c.bms) (hlen : FG2Len st) (hse : singleExcess st c.K)
    (hnb : nbinNonneg st.nbin) :
    FG2Len (pass2Step c st f) ∧ singleExcess (pass2Step c st f) c.K ∧
      nbinNonneg (pass2Step c st f).nbin ∧
      (st.tieOk = true → (pass2Step c st f).tieOk = true) ∧
      (st.multiBinOk = true → (pass2Step c st f).multiBinOk = true) := by
  obtain ⟨l1, l2, l3, l4, l5, l6⟩ := hlen
  have hK0 : 0 ≤ c.K := K_nonneg c hS
  have hdb : 0 ≤ deltaBin (c.bms.getD f default) := hbm f
  obtain ⟨hmain, hokTrue⟩ := pass2SelResult_spec c st f hS
  by_cases hpos : 0 ≤ (pass2SelResult c st f).1.1
  · rcases hmain with heq | ⟨_, hval⟩
    · rw [heq] at hpos
      norm_num at hpos
    · have hmem := pass2SelResult_mem c st f hpos
      obtain ⟨hlt, hmvbin⟩ := pass2Avail_spec c st f _ hmem
      obtain ⟨hc0, hcS, hcb⟩ := hval
      simp only [pass2Step, if_pos hpos]
      set bg := (pass2SelResult c st f).1.1.toNat with hbgdef
      set cnt := (pass2SelResult c st f).1.2.1 with hcntdef
      set cnz : Int := if c.numSampleCol ≤ f then 0
        else ((c.sidx.getD f []).length : Int) with hcnzdef
      refine ⟨⟨?_, ?_, ?_, ?_, ?_, ?_⟩, ⟨?_, ?_⟩, ?_, ?_, ?_⟩
      · simp [apply_ite List.length, l1]
      · simp [l2]
      · simp [l3]
      · simp [l4]
      · simp [apply_ite List.length, l5]
      · simp [l6]
      · -- single-val groups stay within budget
        intro g' hmv'
        dsimp only at hmv' ⊢
        by_cases hg' : g' = bg
        · subst hg'
          rw [getD_set_self _ _ (by omega), getD_set_self _ _ (by omega)]
          by_cases hflip : st.multiVal.getD bg false = false ∧
              st.total.getD bg 0 + cnz - (st.used.getD bg 0 + (cnz - cnt)) > c.K
          · rw [if_pos hflip, getD_set_self _ _ (by omega)] at hmv'
            exact absurd hmv' (by simp)
          · rw [if_neg hflip] at hmv'
            have hnof : ¬ st.total.getD bg 0 + cnz - (st.used.getD bg 0 + (cnz - cnt)) > c.K :=
              fun hb => hflip ⟨hmv', hb⟩
            omega
        · rw [getD_set_ne _ (fun hx => hg' hx.symm), getD_set_ne _ (fun hx => hg' hx.symm)]
          have hmv2 : st.multiVal.getD g' false = false := by
            by_cases hflip : st.multiVal.getD bg false = false ∧
                st.total.getD bg 0 + cnz - (st.used.getD bg 0 + (cnz - cnt)) > c.K
            · rw [if_pos hflip, getD_set_ne _ (fun hx => hg' hx.symm)] at hmv'
              exact hmv'
            · rw [if_neg hflip] at hmv'
              exact hmv'
          exact hse.1 g' hmv2
      · -- forced groups stay within budget
        intro g' hfo
        dsimp only at hfo ⊢
        by_cases hg' : g' = bg
        · subst hg'
          rw [getD_set_self _ _ (by omega), getD_set_self _ _ (by omega)]
          have hold := hse.2 bg hfo
          rcases hcb with hz | hlt2
          · omega
          · rw [p2Bound, if_pos hfo] at hlt2
            have := lt_of_lt_of_le hlt2 (min_le_right _ _)
            omega
        · rw [getD_set_ne _ (fun hx => hg' hx.symm), getD_set_ne _ (fun hx => hg' hx.symm)]
          exact hse.2 g' hfo
      · -- bin counters stay non-negative
        intro g'
        by_cases hg' : g' = bg
        · subst hg'
          rw [getD_set_self _ _ (by omega)]
          have := hnb bg
          omega
        · rw [getD_set_ne _ (fun hx => hg' hx.symm)]
          exact hnb g'
      · intro ht
        simp [ht, hokTrue]
      · intro hm
        rw [hm, Bool.true_and, Bool.or_eq_true]
        by_cases hmv : st.multiVal.getD bg false = true
        · right
          have h1 := hmvbin hmv
          have h2 := hnb bg
          simp only [decide_eq_true_eq]
          omega
        · left
          have hmf : st.multiVal.getD bg false = false := by
            revert hmv; cases st.multiVal.getD bg false <;> simp
          rw [Bool.not_eq_true']
          exact hmf
  · simp only [pass2Step, if_neg hpos]
    refine ⟨⟨?_, ?_, ?_, ?_, ?_, ?_⟩, ⟨?_, ?_⟩, ?_, ?_, ?_⟩
    · simp [l1]
    · simp [l2]
    · simp [l3]
    · simp [l4]
    · simp [l5]
    · simp [l6]
    · intro g' hmv'
      rcases Nat.lt_trichotomy g' st.groups.length with hlt | heq | hgt
      · rw [getD_append_left _ _ (by omega), getD_append_left _ _ (by omega)]
        rw [getD_append_left _ _ (by omega)] at hmv'
        exact hse.1 g' hmv'
      · rw [getD_append_right _ _ (by omega), getD_append_right _ _ (by omega)]
        simp only [l2, l3, heq, Nat.sub_self, List.getD_cons_zero]
        omega
      · rw [List.getD_eq_default _ _ (by simp; omega),
          List.getD_eq_default _ _ (by simp; omega)]
        omega
    · intro g' hfo
      rcases Nat.lt_trichotomy g' st.groups.length with hlt | heq | hgt
      · rw [getD_append_left _ _ (by omega), getD_append_left _ _ (by omega)]
        rw [getD_append_left _ _ (by omega)] at hfo
        exact hse.2 g' hfo
      · rw [getD_append_right _ _ (by omega)] at hfo
        simp only [l6, heq, Nat.sub_self, List.getD_cons_zero] at hfo
        exact absurd hfo (by simp)
      · rw [List.getD_eq_default _ _ (by simp; omega)] at hfo
        exact absurd hfo (by simp)
    · intro g'
      rcases Nat.lt_trichotomy g' st.nbin.length with hlt | heq | hgt
      · rw [getD_append_left _ _ (by omega)]
        exact hnb g'
      · rw [getD_append_right _ _ (by omega)]
        simp only [heq, Nat.sub_self, List.getD_cons_zero]
        omega
      · rw [List.getD_eq_default _ _ (by simp; omega)]
    · intro ht
      simp [ht, hokTrue]
    · intro hm
      exact hm

theorem pass2_fold_inv (c : FGCtx) (hS : 0 ≤ c.S) (hbm : bmsDeltaNonneg c.bms) :
    ∀ (order : List Nat) (st : FG2State),
      FG2Len st → singleExcess st c.K → nbinNonneg st.nbin →
      FG2Len (order.foldl (pass2Step c) st) ∧
        singleExcess (order.foldl (pass2Step c) st) c.K ∧
        nbinNonneg (order.foldl (pass2Step c) st).nbin ∧
        (st.tieOk = true → (order.foldl (pass2Step c) st).tieOk = true) ∧
        (st.multiBinOk = true → (order.foldl (pass2Step c) st).multiBinOk = true) := by
  intro order
  induction order with
  | nil => intro st h1 h2 h3; exact ⟨h1, h2, h3, fun h => h, fun h => h⟩
  | cons f t ih =>
    intro st h1 h2 h3
    simp only [List.foldl_cons]
    obtain ⟨s1, s2, s3, s4, s5⟩ := pass2Step_inv c st f hS hbm h1 h2 h3
    obtain ⟨r1, r2, r3, r4, r5⟩ := ih (pass2Step c st f) s1 s2 s3
    exact ⟨r1, r2, r3, fun h => r4 (s4 h), fun h => r5 (s5 h)⟩

/-! Lemmas about the full `FindGroups`. -/

/-- The flattened output of `FindGroups` is a permutation of the find order. -/
theorem findGroupsFull_flatten (c : FGCtx) (findOrder : List Nat) (numData : Nat) :
    ((findGroupsFull c findOrder numData).groups.flatten).Perm findOrder := by
  unfold findGroupsFull
  have h1 := pass1_fold_flatten c findOrder ⟨[], [], [], [], [], mkRandom numData⟩
  have h2 := splitGroups_flatten c.S
    (findOrder.foldl (pass1Step c) ⟨[], [], [], [], [], mkRandom numData⟩)
  have h3 := pass2_fold_flatten c
    (splitGroups c.S (findOrder.foldl (pass1Step c) ⟨[], [], [], [], [], mkRandom numData⟩)).2
    (splitGroups c.S (findOrder.foldl (pass1Step c) ⟨[], [], [], [], [], mkRandom numData⟩)).1
  exact h3.trans (h2.trans (by simpa using h1))

/-- The invariants of the full `FindGroups` run: synced lengths, the single-val
conflict budget, and both observation flags. -/
theorem findGroupsFull_inv (c : FGCtx) (hS : 0 ≤ c.S) (hbm : bmsDeltaNonneg c.bms)
    (findOrder : List Nat) (numData : Nat) :
    (findGroupsFull c findOrder numData).multiVal.length =
        (findGroupsFull c findOrder numData).groups.length ∧
      (findGroupsFull c findOrder numData).forced.length =
        (findGroupsFull c findOrder numData).groups.length ∧
      (∀ g, (findGroupsFull c findOrder numData).multiVal.getD g false = false →
        (findGroupsFull c findOrder numData).total.getD g 0 -
          (findGroupsFull c findOrder numData).used.getD g 0 ≤ c.K) ∧
      (findGroupsFull c findOrder numData).tieOk = true ∧
      (findGroupsFull c findOrder numData).multiBinOk = true := by
  unfold findGroupsFull
  have base1 : FGLen ⟨[], [], [], [], [], mkRandom numData⟩ := ⟨rfl, rfl, rfl, rfl⟩
  have base2 : excessLe ([] : List Int) ([] : List Int) c.K := by
    intro g
    simpa [List.getD] using K_nonneg c hS
  have base3 : nbinNonneg ([] : List Int) := by
    intro g
    simp [List.getD]
  obtain ⟨p1len, p1ex, p1nb⟩ := pass1_fold_inv c (K_nonneg c hS) hbm findOrder
    ⟨[], [], [], [], [], mkRandom numData⟩ base1 base2 base3
  obtain ⟨s2len, s2ex, s2nb, s2se⟩ := splitGroups_inv c.S
    (findOrder.foldl (pass1Step c) ⟨[], [], [], [], [], mkRandom numData⟩) c.K p1ex p1nb
  obtain ⟨f2len, f2se, f2nb, f2tie, f2bin⟩ := pass2_fold_inv c hS hbm
    (splitGroups c.S (findOrder.foldl (pass1Step c) ⟨[], [], [], [], [], mkRandom numData⟩)).2
    (splitGroups c.S (findOrder.foldl (pass1Step c) ⟨[], [], [], [], [], mkRandom numData⟩)).1
    s2len s2se s2nb
  exact ⟨f2len.2.2.2.2.1, f2len.2.2.2.2.2, fun g => f2se.1 g, f2tie rfl, f2bin rfl⟩

/-- Claim C5: for every input to `FindGroups` and every group in its output
that is not multi-valued, the conflict excess `total_data_cnt - used_row_cnt`
of that group is at most `single_val_max_conflict_cnt = S / 10000`. -/
theorem findGroups_single_val_conflict_bound (c : FGCtx) (findOrder : List Nat)
    (numData : Nat) (hS : 0 ≤ c.S) (hbm : ∀ bm ∈ c.bms, 1 ≤ bm.numBin) :
    ∀ g, (findGroupsFull c findOrder numData).multiVal.getD g false = false →
      (findGroupsFull c findOrder numData).total.getD g 0 -
        (findGroupsFull c findOrder numData).used.getD g 0 ≤ c.S / 10000 :=
  (findGroupsFull_inv c hS (bmsDeltaNonneg_of_numBin c.bms hbm) findOrder numData).2.2.1

theorem findGroups_single_val_conflict_bound_witness :
    (0 ≤ exCtx.S) ∧
      (findGroupsFull exCtx [0, 1] 1000).multiVal.getD 0 false = false ∧
      (findGroupsFull exCtx [0, 1] 1000).total.getD 0 0 -
        (findGroupsFull exCtx [0, 1] 1000).used.getD 0 0 ≤ exCtx.S / 10000 :=
  ⟨by norm_num [exCtx], by decide,
    findGroups_single_val_conflict_bound exCtx [0, 1] 1000 (by norm_num [exCtx])
      (by
        intro bm hb
        simp only [exCtx, List.mem_cons, List.not_mem_nil, or_false] at hb
        rcases hb with rfl | rfl <;> decide)
      0 (by decide)⟩

/-- Claim C10: in `FindGroups` pass 2, the tie-break comparison
`group_total_data_cnt[best_gid] > group_total_data_cnt[gid]` is only ever
evaluated with `best_gid ≥ 0`: every first valid candidate has a conflict count
strictly below the initial `best_conflict_cnt = S + 1`, so the short-circuited
disjunction never indexes with the sentinel `-1`. -/
theorem findGroups_tie_break_safe (c : FGCtx) (findOrder : List Nat) (numData : Nat)
    (hS : 0 ≤ c.S) (hbm : ∀ bm ∈ c.bms, 1 ≤ bm.numBin) :
    (findGroupsFull c findOrder numData).tieOk = true :=
  (findGroupsFull_inv c hS (bmsDeltaNonneg_of_numBin c.bms hbm) findOrder numData).2.2.2.1

theorem findGroups_tie_break_safe_witness :
    (0 ≤ exCtx.S) ∧ (findGroupsFull exCtx [0, 1] 1000).tieOk = true :=
  ⟨by norm_num [exCtx],
    findGroups_tie_break_safe exCtx [0, 1] 1000 (by norm_num [exCtx])
      (by
        intro bm hb
        simp only [exCtx, List.mem_cons, List.not_mem_nil, or_false] at hb
        rcases hb with rfl | rfl <;> decide)⟩

/-- Claim C4: in `FindGroups` pass 2, every feature accepted into an already
multi-valued group satisfies `num_bin[g] + Δbin(f) ≤ max_bin_per_multi_val_group
= 2^14` at acceptance time.  The candidate filter of the source enforces the
stricter `num_bin[g] + (num_bin[g] + Δbin) ≤ 2^14`, which implies the claimed
bound since the accumulated bin counts are non-negative. -/
theorem findGroups_multi_val_bin_bound (c : FGCtx) (findOrder : List Nat)
    (numData : Nat) (hS : 0 ≤ c.S) (hbm : ∀ bm ∈ c.bms, 1 ≤ bm.numBin) :
    (findGroupsFull c findOrder numData).multiBinOk = true :=
  (findGroupsFull_inv c hS (bmsDeltaNonneg_of_numBin c.bms hbm) findOrder numData).2.2.2.2

theorem findGroups_multi_val_bin_bound_witness :
    (0 ≤ exCtx.S) ∧ (findGroupsFull exCtx [0, 1] 1000).multiBinOk = true :=
  ⟨by norm_num [exCtx],
    findGroups_multi_val_bin_bound exCtx [0, 1] 1000 (by norm_num [exCtx])
      (by
        intro bm hb
        simp only [exCtx, List.mem_cons, List.not_mem_nil, or_false] at hb
        rcases hb with rfl | rfl <;> decide)⟩

/-! Shuffle lemmas. -/

/-- The modelled `NextShort` draws within `[lo, hi)` when the range is
non-empty. -/
theorem nextShort_bounds (r : RandomModel) (lo hi : Nat) (h : lo < hi) :
    lo ≤ (r.nextShort lo hi).1 ∧ (r.nextShort lo hi).1 < hi := by
  unfold RandomModel.nextShort
  refine ⟨by simp, ?_⟩
  have hm := Nat.mod_lt (r.randInt16).1 (show 0 < hi - lo by omega)
  simp only []
  omega

/-- One shuffle step permutes the zipped (group, flag) pairs and preserves both
lengths. -/
theorem shuffleStep_spec (n : Nat) (acc : List (List Nat) × List Bool × RandomModel)
    (i : Nat) (hg : acc.1.length = n) (hm : acc.2.1.length = n) (hi : i < n - 1) :
    (((shuffleStep n acc i).1.zip (shuffleStep n acc i).2.1).Perm (acc.1.zip acc.2.1)) ∧
      (shuffleStep n acc i).1.length = n ∧ (shuffleStep n acc i).2.1.length = n := by
  obtain ⟨hlo, hhi⟩ := nextShort_bounds acc.2.2 (i + 1) n (by omega)
  unfold shuffleStep
  refine ⟨?_, by simp [listSwap_length, hg], by simp [listSwap_length, hm]⟩
  rw [listSwap_zip acc.1 acc.2.1 (by omega) (by omega) (by omega)]
  refine listSwap_perm (acc.1.zip acc.2.1) ([], false) i _ ?_ ?_ <;>
    simp [List.length_zip, hg, hm] <;> omega

theorem shuffleFold_spec (n : Nat) :
    ∀ (l : List Nat) (acc : List (List Nat) × List Bool × RandomModel),
      (∀ i ∈ l, i < n - 1) → acc.1.length = n → acc.2.1.length = n →
      (((l.foldl (shuffleStep n) acc).1.zip (l.foldl (shuffleStep n) acc).2.1).Perm
          (acc.1.zip acc.2.1)) ∧
        (l.foldl (shuffleStep n) acc).1.length = n ∧
        (l.foldl (shuffleStep n) acc).2.1.length = n := by
  intro l
  induction l with
  | nil => intro acc _ hg hm; exact ⟨List.Perm.refl _, hg, hm⟩
  | cons i t ih =>
    intro acc hall hg hm
    simp only [List.foldl_cons]
    obtain ⟨s1, s2, s3⟩ := shuffleStep_spec n acc i hg hm (hall i (List.mem_cons_self i t))
    obtain ⟨r1, r2, r3⟩ := ih (shuffleStep n acc i)
      (fun j hj => hall j (List.mem_cons_of_mem _ hj)) s2 s3
    exact ⟨r1.trans s1, r2, r3⟩

/-- The deterministic shuffle permutes the zipped (group, flag) pairs and
preserves the lengths. -/
theorem shuffleGroups_spec (groups : List (List Nat)) (mv : List Bool) (numData : Nat)
    (hlen : mv.length = groups.length) :
    (((shuffleGroups groups mv numData).1.zip (shuffleGroups groups mv numData).2).Perm
        (groups.zip mv)) ∧
      (shuffleGroups groups mv numData).1.length = groups.length ∧
      (shuffleGroups groups mv numData).2.length = groups.length := by
  unfold shuffleGroups
  exact shuffleFold_spec groups.length (List.range (groups.length - 1))
    (groups, mv, mkRandom numData) (fun i hi => List.mem_range.mp hi) rfl hlen

/-- The shuffled group list alone is a permutation of its input, regardless of
the flag vector. -/
theorem shuffleGroups_groups_perm (groups : List (List Nat)) (mv : List Bool)
    (numData : Nat) : ((shuffleGroups groups mv numData).1).Perm groups := by
  unfold shuffleGroups
  suffices h : ∀ (l : List Nat) (acc : List (List Nat) × List Bool × RandomModel),
      (∀ i ∈ l, i < groups.length - 1) → acc.1.length = groups.length →
      ((l.foldl (shuffleStep groups.length) acc).1).Perm acc.1 ∧
        (l.foldl (shuffleStep groups.length) acc).1.length = groups.length by
    exact (h (List.range (groups.length - 1)) (groups, mv, mkRandom numData)
      (fun i hi => List.mem_range.mp hi) rfl).1
  intro l
  induction l with
  | nil => intro acc _ hg; exact ⟨List.Perm.refl _, hg⟩
  | cons i t ih =>
    intro acc hall hg
    simp only [List.foldl_cons]
    have hi : i < groups.length - 1 := hall i (List.mem_cons_self i t)
    obtain ⟨hlo, hhi⟩ := nextShort_bounds acc.2.2 (i + 1) groups.length (by omega)
    have hstep : ((shuffleStep groups.length acc i).1).Perm acc.1 := by
      unfold shuffleStep
      exact listSwap_perm acc.1 [] i _ (by omega) (by omega)
    have hsteplen : (shuffleStep groups.length acc i).1.length = groups.length := by
      unfold shuffleStep
      simp [listSwap_length, hg]
    obtain ⟨r1, r2⟩ := ih (shuffleStep groups.length acc i)
      (fun j hj => hall j (List.mem_cons_of_mem _ hj)) hsteplen
    exact ⟨r1.trans hstep, r2⟩

/-- The count-descending order is a permutation of the used features. -/
theorem featureOrderByCnt_perm (sidx : List (List Nat)) (numSampleCol : Nat)
    (usedFeatures : List Nat) :
    (featureOrderByCnt sidx numSampleCol usedFeatures).Perm usedFeatures := by
  unfold featureOrderByCnt
  have hms := List.mergeSort_perm (List.range usedFeatures.length)
    (fun a b => decide ((usedFeatures.map (fun f =>
      if f < numSampleCol then (sidx.getD f []).length else 0)).getD b 0 ≤
        (usedFeatures.map (fun f =>
          if f < numSampleCol then (sidx.getD f []).length else 0)).getD a 0))
  have h2 := hms.map (fun i => usedFeatures.getD i 0)
  rw [map_getD_range usedFeatures 0] at h2
  exact h2

/-- The flattened bundling output is a permutation of the used features. -/
theorem fastFeatureBundling_flatten (bms : List BinMapperModel)
    (sidx : List (List Nat)) (svals : List (List ℚ)) (numSampleCol : Nat) (S : Int)
    (usedFeatures : List Nat) (numData : Nat) (useGpu : Bool) :
    ((fastFeatureBundling bms sidx svals numSampleCol S usedFeatures numData
      useGpu).1.flatten).Perm usedFeatures := by
  unfold fastFeatureBundling
  have hsh := (shuffleGroups_groups_perm
    (ffbChosen bms sidx svals numSampleCol S usedFeatures numData useGpu).1
    (ffbChosen bms sidx svals numSampleCol S usedFeatures numData useGpu).2 numData).flatten
  refine hsh.trans ?_
  unfold ffbChosen
  dsimp only
  split
  · exact (findGroupsFull_flatten _ _ _).trans
      (featureOrderByCnt_perm sidx numSampleCol usedFeatures)
  · exact findGroupsFull_flatten _ _ _

/-- Claim C3: `FastFeatureBundling` runs `FindGroups` on the caller order and
on the stable count-descending order, keeps whichever has fewer groups (ties
keep the caller order), and returns that list shuffled by identical swaps on
groups and flags: the output length is the minimum of the two group counts and
the output (group, flag) pairs are a permutation of the chosen run's pairs. -/
theorem fastFeatureBundling_min_shuffle (bms : List BinMapperModel)
    (sidx : List (List Nat)) (svals : List (List ℚ)) (numSampleCol : Nat) (S : Int)
    (usedFeatures : List Nat) (numData : Nat) (useGpu : Bool) (hS : 0 ≤ S)
    (hbm : ∀ bm ∈ bms, 1 ≤ bm.numBin) :
    (fastFeatureBundling bms sidx svals numSampleCol S usedFeatures numData useGpu).1.length =
        min (ffbRun bms sidx svals numSampleCol S usedFeatures numData useGpu
              usedFeatures).groups.length
          (ffbRun bms sidx svals numSampleCol S usedFeatures numData useGpu
            (featureOrderByCnt sidx numSampleCol usedFeatures)).groups.length ∧
      ((fastFeatureBundling bms sidx svals numSampleCol S usedFeatures numData useGpu).1.zip
        (fastFeatureBundling bms sidx svals numSampleCol S usedFeatures numData useGpu).2).Perm
        (if (ffbRun bms sidx svals numSampleCol S usedFeatures numData useGpu
              usedFeatures).groups.length >
            (ffbRun bms sidx svals numSampleCol S usedFeatures numData useGpu
              (featureOrderByCnt sidx numSampleCol usedFeatures)).groups.length
         then (ffbRun bms sidx svals numSampleCol S usedFeatures numData useGpu
            (featureOrderByCnt sidx numSampleCol usedFeatures)).groups.zip
              (ffbRun bms sidx svals numSampleCol S usedFeatures numData useGpu
                (featureOrderByCnt sidx numSampleCol usedFeatures)).multiVal
         else (ffbRun bms sidx svals numSampleCol S usedFeatures numData useGpu
            usedFeatures).groups.zip
              (ffbRun bms sidx svals numSampleCol S usedFeatures numData useGpu
                usedFeatures).multiVal) := by
  have hdn := bmsDeltaNonneg_of_numBin bms hbm
  have hl1 := (findGroupsFull_inv ⟨bms, applyFixups bms svals numSampleCol S.toNat
    usedFeatures sidx, numSampleCol, S, useGpu⟩ hS hdn usedFeatures numData).1
  have hl2 := (findGroupsFull_inv ⟨bms, applyFixups bms svals numSampleCol S.toNat
    usedFeatures sidx, numSampleCol, S, useGpu⟩ hS hdn
    (featureOrderByCnt sidx numSampleCol usedFeatures) numData).1
  by_cases hcmp : (ffbRun bms sidx svals numSampleCol S usedFeatures numData useGpu
      usedFeatures).groups.length >
    (ffbRun bms sidx svals numSampleCol S usedFeatures numData useGpu
      (featureOrderByCnt sidx numSampleCol usedFeatures)).groups.length
  · have hch : ffbChosen bms sidx svals numSampleCol S usedFeatures numData useGpu =
        ((ffbRun bms sidx svals numSampleCol S usedFeatures numData useGpu
          (featureOrderByCnt sidx numSampleCol usedFeatures)).groups,
         (ffbRun bms sidx svals numSampleCol S usedFeatures numData useGpu
          (featureOrderByCnt sidx numSampleCol usedFeatures)).multiVal) := by
      unfold ffbChosen
      rw [if_pos hcmp]
    obtain ⟨hp, hlen1, _⟩ := shuffleGroups_spec
      (ffbChosen bms sidx svals numSampleCol S usedFeatures numData useGpu).1
      (ffbChosen bms sidx svals numSampleCol S usedFeatures numData useGpu).2 numData
      (by rw [hch]; exact hl2)
    constructor
    · have hr : (fastFeatureBundling bms sidx svals numSampleCol S usedFeatures numData
          useGpu).1.length =
          (ffbChosen bms sidx svals numSampleCol S usedFeatures numData useGpu).1.length :=
        hlen1
      have hc1 : (ffbChosen bms sidx svals numSampleCol S usedFeatures numData
          useGpu).1.length =
          (ffbRun bms sidx svals numSampleCol S usedFeatures numData useGpu
            (featureOrderByCnt sidx numSampleCol usedFeatures)).groups.length := by
        rw [hch]
      rw [hr, hc1]
      omega
    · rw [if_pos hcmp]
      refine List.Perm.trans hp (List.Perm.of_eq ?_)
      rw [hch]
  · have hch : ffbChosen bms sidx svals numSampleCol S usedFeatures numData useGpu =
        ((ffbRun bms sidx svals numSampleCol S usedFeatures numData useGpu
          usedFeatures).groups,
         (ffbRun bms sidx svals numSampleCol S usedFeatures numData useGpu
          usedFeatures).multiVal) := by
      unfold ffbChosen
      rw [if_neg hcmp]
    obtain ⟨hp, hlen1, _⟩ := shuffleGroups_spec
      (ffbChosen bms sidx svals numSampleCol S usedFeatures numData useGpu).1
      (ffbChosen bms sidx svals numSampleCol S usedFeatures numData useGpu).2 numData
      (by rw [hch]; exact hl1)
    constructor
    · have hr : (fastFeatureBundling bms sidx svals numSampleCol S usedFeatures numData
          useGpu).1.length =
          (ffbChosen bms sidx svals numSampleCol S usedFeatures numData useGpu).1.length :=
        hlen1
      have hc1 : (ffbChosen bms sidx svals numSampleCol S usedFeatures numData
          useGpu).1.length =
          (ffbRun bms sidx svals numSampleCol S usedFeatures numData useGpu
            usedFeatures).groups.length := by
        rw [hch]
      rw [hr, hc1]
      omega
    · rw [if_neg hcmp]
      refine List.Perm.trans hp (List.Perm.of_eq ?_)
      rw [hch]

theorem fastFeatureBundling_min_shuffle_witness :
    (0 ≤ (10 : Int)) ∧
      (fastFeatureBundling [exBm, exBm] exSidx [[], []] 2 10 [0, 1] 1000 false).1.length =
        min (ffbRun [exBm, exBm] exSidx [[], []] 2 10 [0, 1] 1000 false [0, 1]).groups.length
          (ffbRun [exBm, exBm] exSidx [[], []] 2 10 [0, 1] 1000 false
            (featureOrderByCnt exSidx 2 [0, 1])).groups.length :=
  ⟨by norm_num,
    (fastFeatureBundling_min_shuffle [exBm, exBm] exSidx [[], []] 2 10 [0, 1] 1000 false
      (by norm_num)
      (by
        intro bm hb
        simp only [List.mem_cons, List.not_mem_nil, or_false] at hb
        rcases hb with rfl | rfl <;> decide)).1⟩

/-- Claim C9: `FastFeatureBundling` is deterministic.  In this embedding the
driver is a pure function of exactly the listed inputs, because every RNG it
uses is created from the row count `num_data`; two runs on equal inputs are
definitionally equal. -/
theorem fastFeatureBundling_deterministic (bms₁ bms₂ : List BinMapperModel)
    (sidx₁ sidx₂ : List (List Nat)) (svals₁ svals₂ : List (List ℚ))
    (nsc₁ nsc₂ : Nat) (S₁ S₂ : Int) (uf₁ uf₂ : List Nat) (nd₁ nd₂ : Nat)
    (gpu₁ gpu₂ : Bool) (hb : bms₁ = bms₂) (hs : sidx₁ = sidx₂) (hv : svals₁ = svals₂)
    (hn : nsc₁ = nsc₂) (hS : S₁ = S₂) (hu : uf₁ = uf₂) (hd : nd₁ = nd₂)
    (hg : gpu₁ = gpu₂) :
    fastFeatureBundling bms₁ sidx₁ svals₁ nsc₁ S₁ uf₁ nd₁ gpu₁ =
      fastFeatureBundling bms₂ sidx₂ svals₂ nsc₂ S₂ uf₂ nd₂ gpu₂ := by
  subst hb; subst hs; subst hv; subst hn; subst hS; subst hu; subst hd; subst hg
  rfl

theorem fastFeatureBundling_deterministic_witness :
    fastFeatureBundling [exBm, exBm] exSidx [[], []] 2 10 [0, 1] 1000 false =
      fastFeatureBundling [exBm, exBm] exSidx [[], []] 2 10 [0, 1] 1000 false :=
  fastFeatureBundling_deterministic [exBm, exBm] [exBm, exBm] exSidx exSidx [[], []]
    [[], []] 2 2 10 10 [0, 1] [0, 1] 1000 1000 false false rfl rfl rfl rfl rfl rfl rfl rfl

/-! Lemmas about `Construct`'s feature-index maps (claim C2). -/

theorem noGroup_flatten (used : List Nat) : (noGroup used).flatten = used := by
  unfold noGroup
  induction used with
  | nil => rfl
  | cons f t ih => simp only [List.map_cons, List.flatten_cons, ih, List.singleton_append]

theorem usedFeaturesOf_nodup (bms : List (Option BinMapperModel)) :
    (usedFeaturesOf bms).Nodup :=
  (List.nodup_range _).filter _

theorem usedFeaturesOf_lt (bms : List (Option BinMapperModel)) :
    ∀ f ∈ usedFeaturesOf bms, f < bms.length := fun _ hf =>
  List.mem_range.mp (List.mem_of_mem_filter hf)

theorem fillUFM_length : ∀ (flat : List Nat) (m : List Int) (k : Nat),
    (fillUFM m flat k).length = m.length := by
  intro flat
  induction flat with
  | nil => intro m k; rfl
  | cons f t ih => intro m k; simp only [fillUFM, ih, List.length_set]

theorem fillUFM_notmem : ∀ (flat : List Nat) (m : List Int) (k f : Nat) (d : Int),
    f ∉ flat → (fillUFM m flat k).getD f d = m.getD f d := by
  intro flat
  induction flat with
  | nil => intro m k f d _; rfl
  | cons a t ih =>
    intro m k f d hf
    have hfa : a ≠ f := fun h => hf (h ▸ List.mem_cons_self a t)
    have hft : f ∉ t := fun h => hf (List.mem_cons_of_mem _ h)
    simp only [fillUFM]
    rw [ih _ _ _ _ hft, getD_set_ne _ hfa]

theorem fillUFM_at : ∀ (flat : List Nat) (m : List Int) (k : Nat),
    flat.Nodup → (∀ x ∈ flat, x < m.length) →
    ∀ i, i < flat.length →
      (fillUFM m flat k).getD (flat.getD i 0) (-1) = Int.ofNat (k + i) := by
  intro flat
  induction flat with
  | nil => intro m k _ _ i hi; simp at hi
  | cons a t ih =>
    intro m k hnd hlt i hi
    simp only [fillUFM]
    cases i with
    | zero =>
      simp only [List.getD_cons_zero]
      have hnotin : a ∉ t := (List.nodup_cons.mp hnd).1
      rw [fillUFM_notmem t _ _ _ _ hnotin,
        getD_set_self m _ (hlt a (List.mem_cons_self a t)) _]
      simp
    | succ i =>
      simp only [List.getD_cons_succ]
      have hrec := ih (m.set a (Int.ofNat k)) (k + 1) (List.nodup_cons.mp hnd).2
        (fun x hx => by rw [List.length_set]; exact hlt x (List.mem_cons_of_mem _ hx)) i
        (by simpa using hi)
      rw [hrec]
      congr 1
      omega

/-- The map-filling loop inverts correctly over any flattened contents that are
a permutation of the non-trivial features. -/
theorem constructMaps_spec (numTotal : Nat) (flat used : List Nat)
    (hperm : flat.Perm used) (hnd : used.Nodup) (hsub : ∀ x ∈ used, x < numTotal) :
    (∀ f ∈ used,
      0 ≤ (fillUFM (List.replicate numTotal (-1)) flat 0).getD f (-1) ∧
      flat.getD ((fillUFM (List.replicate numTotal (-1)) flat 0).getD f (-1)).toNat 0 = f) ∧
    (∀ i, i < flat.length →
      (fillUFM (List.replicate numTotal (-1)) flat 0).getD (flat.getD i 0) (-1) =
        Int.ofNat i) ∧
    (∀ f, f < numTotal → f ∉ used →
      (fillUFM (List.replicate numTotal (-1)) flat 0).getD f (-1) = -1) := by
  have hndf : flat.Nodup := hperm.nodup_iff.mpr hnd
  have hsubf : ∀ x ∈ flat, x < numTotal := fun x hx => hsub x (hperm.mem_iff.mp hx)
  have hlen : ∀ x ∈ flat, x < (List.replicate numTotal (-1 : Int)).length := by
    intro x hx
    rw [List.length_replicate]
    exact hsubf x hx
  have hat := fillUFM_at flat (List.replicate numTotal (-1)) 0 hndf hlen
  refine ⟨?_, ?_, ?_⟩
  · intro f hf
    have hff : f ∈ flat := hperm.mem_iff.mpr hf
    obtain ⟨i, hi, hfi⟩ := List.mem_iff_getElem.mp hff
    have hgetd : flat.getD i 0 = f := by
      rw [List.getD_eq_getElem _ _ hi]
      exact hfi
    have hval := hat i hi
    rw [hgetd] at hval
    rw [hval]
    refine ⟨by simp, ?_⟩
    have ht : (Int.ofNat (0 + i)).toNat = i := by simp
    rw [ht, List.getD_eq_getElem _ _ hi]
    exact hfi
  · intro i hi
    simpa using hat i hi
  · intro f h1 h2
    have hff : f ∉ flat := fun hx => h2 (hperm.mem_iff.mp hx)
    rw [fillUFM_notmem flat _ _ _ _ hff]
    exact getD_replicate_self numTotal (-1) (-1) h1

/-- Claim C2: after `Dataset::Construct`, every non-trivial input feature `f`
satisfies `real_feature_idx[used_feature_map[f]] = f` with a non-negative map
entry, every inner index `i` satisfies `used_feature_map[real_feature_idx[i]] =
i`, and trivial or null-mapper features keep `used_feature_map = -1`. -/
theorem construct_feature_maps (bms : List (Option BinMapperModel))
    (sidx : List (List Nat)) (svals : List (List ℚ)) (numSampleCol : Nat) (S : Int)
    (numData : Nat) (enableBundle useGpu : Bool) :
    (∀ f ∈ usedFeaturesOf bms,
      0 ≤ (construct bms sidx svals numSampleCol S numData enableBundle
          useGpu).usedFeatureMap.getD f (-1) ∧
      (construct bms sidx svals numSampleCol S numData enableBundle
          useGpu).realFeatureIdx.getD
        ((construct bms sidx svals numSampleCol S numData enableBundle
          useGpu).usedFeatureMap.getD f (-1)).toNat 0 = f) ∧
    (∀ i, i < (construct bms sidx svals numSampleCol S numData enableBundle
        useGpu).numFeatures →
      (construct bms sidx svals numSampleCol S numData enableBundle
          useGpu).usedFeatureMap.getD
        ((construct bms sidx svals numSampleCol S numData enableBundle
          useGpu).realFeatureIdx.getD i 0) (-1) = Int.ofNat i) ∧
    (∀ f, f < bms.length → f ∉ usedFeaturesOf bms →
      (construct bms sidx svals numSampleCol S numData enableBundle
          useGpu).usedFeatureMap.getD f (-1) = -1) := by
  have hperm : ((construct bms sidx svals numSampleCol S numData enableBundle
      useGpu).realFeatureIdx).Perm (usedFeaturesOf bms) := by
    unfold construct
    dsimp only
    split
    · exact fastFeatureBundling_flatten _ _ _ _ _ _ _ _
    · rw [noGroup_flatten]
  have hufm : (construct bms sidx svals numSampleCol S numData enableBundle
      useGpu).usedFeatureMap =
      fillUFM (List.replicate bms.length (-1))
        (construct bms sidx svals numSampleCol S numData enableBundle
          useGpu).realFeatureIdx 0 := rfl
  have hnum : (construct bms sidx svals numSampleCol S numData enableBundle
      useGpu).numFeatures =
      (construct bms sidx svals numSampleCol S numData enableBundle
        useGpu).realFeatureIdx.length := by
    unfold construct
    dsimp only
    exact (List.length_flatten _).symm
  obtain ⟨m1, m2, m3⟩ := constructMaps_spec bms.length
    ((construct bms sidx svals numSampleCol S numData enableBundle useGpu).realFeatureIdx)
    (usedFeaturesOf bms) hperm (usedFeaturesOf_nodup bms) (usedFeaturesOf_lt bms)
  refine ⟨?_, ?_, ?_⟩
  · intro f hf
    rw [hufm]
    exact m1 f hf
  · intro i hi
    rw [hnum] at hi
    rw [hufm]
    exact m2 i hi
  · intro f h1 h2
    rw [hufm]
    exact m3 f h1 h2

theorem construct_feature_maps_witness :
    (0 ∈ usedFeaturesOf exBms) ∧
      (construct exBms [] [] 0 0 5 false false).realFeatureIdx.getD
        ((construct exBms [] [] 0 0 5 false false).usedFeatureMap.getD 0 (-1)).toNat 0 = 0 ∧
      (2 < exBms.length ∧ 2 ∉ usedFeaturesOf exBms) ∧
      (construct exBms [] [] 0 0 5 false false).usedFeatureMap.getD 2 (-1) = -1 :=
  ⟨by decide,
    ((construct_feature_maps exBms [] [] 0 0 5 false false).1 0 (by decide)).2,
    ⟨by decide, by decide⟩,
    (construct_feature_maps exBms [] [] 0 0 5 false false).2.2 2 (by decide) (by decide)⟩

/-! Lemmas about `FixHistogram` (claim C1). -/

/-- Closed form of the `FixHistogram` subtraction loop: only the
most-frequent-bin entry changes, accumulating the totals minus all other
scanned bins. -/
theorem fixFold_closed (data : List (ℚ × ℚ)) (mfb : Nat) (hmfb : mfb < data.length)
    (sG sH : ℚ) :
    ∀ n, (List.range n).foldl (fun d i =>
      if i ≠ mfb then
        let acc := d.getD mfb (0, 0)
        let v := d.getD i (0, 0)
        d.set mfb (acc.1 - v.1, acc.2 - v.2)
      else d) (data.set mfb (sG, sH)) =
      data.set mfb
        (sG - ∑ i ∈ Finset.range n, (if i = mfb then 0 else (data.getD i (0, 0)).1),
         sH - ∑ i ∈ Finset.range n, (if i = mfb then 0 else (data.getD i (0, 0)).2)) := by
  intro n
  induction n with
  | zero => simp
  | succ n ih =>
    rw [List.range_succ, List.foldl_append, ih]
    simp only [List.foldl_cons, List.foldl_nil]
    by_cases hn : n = mfb
    · rw [if_neg (by simpa using hn)]
      subst hn
      rw [Finset.sum_range_succ, Finset.sum_range_succ]
      simp
    · rw [if_pos hn]
      have h1 := getD_set_self data mfb hmfb
        (sG - ∑ i ∈ Finset.range n, (if i = mfb then 0 else (data.getD i (0, 0)).1),
         sH - ∑ i ∈ Finset.range n, (if i = mfb then 0 else (data.getD i (0, 0)).2)) (0, 0)
      have h2 := getD_set_ne data (show mfb ≠ n from fun hx => hn hx.symm)
        (sG - ∑ i ∈ Finset.range n, (if i = mfb then 0 else (data.getD i (0, 0)).1),
         sH - ∑ i ∈ Finset.range n, (if i = mfb then 0 else (data.getD i (0, 0)).2)) (0, 0)
      rw [h1, h2, List.set_set, Finset.sum_range_succ, Finset.sum_range_succ]
      rw [if_neg hn, if_neg hn]
      congr 1
      dsimp only
      simp only [Prod.mk.injEq]
      constructor <;> ring

/-- Splitting a sum over the range at the designated index. -/
theorem sum_ite_split (nb mfb : Nat) (hmfb : mfb < nb) (A : ℚ) (F : Nat → ℚ) :
    (∑ i ∈ Finset.range nb, (if i = mfb then A else F i)) =
      A + ∑ i ∈ Finset.range nb, (if i = mfb then 0 else F i) := by
  have hmem : mfb ∈ Finset.range nb := Finset.mem_range.mpr hmfb
  have e1 : (∑ i ∈ Finset.range nb, (if i = mfb then A else F i)) =
      A + ∑ i ∈ (Finset.range nb).erase mfb, (if i = mfb then A else F i) := by
    rw [← Finset.add_sum_erase (Finset.range nb) (fun i => if i = mfb then A else F i) hmem]
    simp
  have e2 : (∑ i ∈ Finset.range nb, (if i = mfb then 0 else F i)) =
      0 + ∑ i ∈ (Finset.range nb).erase mfb, (if i = mfb then 0 else F i) := by
    rw [← Finset.add_sum_erase (Finset.range nb) (fun i => if i = mfb then 0 else F i) hmem]
    simp
  rw [e1, e2, zero_add]
  congr 1
  refine Finset.sum_congr rfl ?_
  intro x hx
  have hne : x ≠ mfb := Finset.ne_of_mem_erase hx
  rw [if_neg hne, if_neg hne]

/-- Claim C1: if the feature's `most_freq_bin > 0`, `FixHistogram` sets that
entry to the leaf totals minus the sum of all other bins and leaves every other
entry unchanged, so the per-bin sums over `[0, num_bin)` equal the leaf totals
afterwards; if `most_freq_bin = 0`, the buffer is unchanged. -/
theorem fixHistogram_repairs (ds : HistDataset) (featureIdx : Nat)
    (sumGradient sumHessian : ℚ) (data : List (ℚ × ℚ))
    (hbin : (featureBinMapper ds featureIdx).mostFreqBin <
      (featureBinMapper ds featureIdx).numBin)
    (hlen : (featureBinMapper ds featureIdx).numBin ≤ data.length) :
    (0 < (featureBinMapper ds featureIdx).mostFreqBin →
      ((fixHistogram ds featureIdx sumGradient sumHessian data).getD
          (featureBinMapper ds featureIdx).mostFreqBin (0, 0) =
        (sumGradient - ∑ i ∈ Finset.range (featureBinMapper ds featureIdx).numBin,
            (if i = (featureBinMapper ds featureIdx).mostFreqBin then 0
             else (data.getD i (0, 0)).1),
         sumHessian - ∑ i ∈ Finset.range (featureBinMapper ds featureIdx).numBin,
            (if i = (featureBinMapper ds featureIdx).mostFreqBin then 0
             else (data.getD i (0, 0)).2)) ∧
       (∀ i, i ≠ (featureBinMapper ds featureIdx).mostFreqBin →
         (fixHistogram ds featureIdx sumGradient sumHessian data).getD i (0, 0) =
           data.getD i (0, 0)) ∧
       (∑ i ∈ Finset.range (featureBinMapper ds featureIdx).numBin,
         ((fixHistogram ds featureIdx sumGradient sumHessian data).getD i (0, 0)).1) =
         sumGradient ∧
       (∑ i ∈ Finset.range (featureBinMapper ds featureIdx).numBin,
         ((fixHistogram ds featureIdx sumGradient sumHessian data).getD i (0, 0)).2) =
         sumHessian)) ∧
    ((featureBinMapper ds featureIdx).mostFreqBin = 0 →
      fixHistogram ds featureIdx sumGradient sumHessian data = data) := by
  constructor
  · intro h1
    have hmfb : (featureBinMapper ds featureIdx).mostFreqBin < data.length :=
      lt_of_lt_of_le hbin hlen
    have hfx : fixHistogram ds featureIdx sumGradient sumHessian data =
        data.set (featureBinMapper ds featureIdx).mostFreqBin
          (sumGradient - ∑ i ∈ Finset.range (featureBinMapper ds featureIdx).numBin,
              (if i = (featureBinMapper ds featureIdx).mostFreqBin then 0
               else (data.getD i (0, 0)).1),
           sumHessian - ∑ i ∈ Finset.range (featureBinMapper ds featureIdx).numBin,
              (if i = (featureBinMapper ds featureIdx).mostFreqBin then 0
               else (data.getD i (0, 0)).2)) := by
      unfold fixHistogram
      rw [if_pos h1]
      exact fixFold_closed data (featureBinMapper ds featureIdx).mostFreqBin hmfb
        sumGradient sumHessian (featureBinMapper ds featureIdx).numBin
    refine ⟨?_, ?_, ?_, ?_⟩
    · rw [hfx]
      exact getD_set_self data _ hmfb _ _
    · intro i hi
      rw [hfx]
      exact getD_set_ne data (fun hx => hi hx.symm) _ _
    · have hcongr : ∀ i ∈ Finset.range (featureBinMapper ds featureIdx).numBin,
          ((fixHistogram ds featureIdx sumGradient sumHessian data).getD i (0, 0)).1 =
            (if i = (featureBinMapper ds featureIdx).mostFreqBin then
              sumGradient - ∑ j ∈ Finset.range (featureBinMapper ds featureIdx).numBin,
                (if j = (featureBinMapper ds featureIdx).mostFreqBin then 0
                 else (data.getD j (0, 0)).1)
             else (data.getD i (0, 0)).1) := by
        intro i _
        by_cases hi : i = (featureBinMapper ds featureIdx).mostFreqBin
        · subst hi
          rw [if_pos rfl, hfx, getD_set_self data _ hmfb _ _]
        · rw [if_neg hi, hfx, getD_set_ne data (fun hx => hi hx.symm) _ _]
      rw [Finset.sum_congr rfl hcongr, sum_ite_split _ _ hbin]
      ring
    · have hcongr : ∀ i ∈ Finset.range (featureBinMapper ds featureIdx).numBin,
          ((fixHistogram ds featureIdx sumGradient sumHessian data).getD i (0, 0)).2 =
            (if i = (featureBinMapper ds featureIdx).mostFreqBin then
              sumHessian - ∑ j ∈ Finset.range (featureBinMapper ds featureIdx).numBin,
                (if j = (featureBinMapper ds featureIdx).mostFreqBin then 0
                 else (data.getD j (0, 0)).2)
             else (data.getD i (0, 0)).2) := by
        intro i _
        by_cases hi : i = (featureBinMapper ds featureIdx).mostFreqBin
        · subst hi
          rw [if_pos rfl, hfx, getD_set_self data _ hmfb _ _]
        · rw [if_neg hi, hfx, getD_set_ne data (fun hx => hi hx.symm) _ _]
      rw [Finset.sum_congr rfl hcongr, sum_ite_split _ _ hbin]
      ring
  · intro h0
    unfold fixHistogram
    rw [if_neg (by omega)]

theorem fixHistogram_repairs_witness :
    (0 < (featureBinMapper exHistDs 0).mostFreqBin ∧
      (featureBinMapper exHistDs 0).mostFreqBin < (featureBinMapper exHistDs 0).numBin ∧
      (featureBinMapper exHistDs 0).numBin ≤ ([(3, 3), (0, 0), (2, 2)] :
        List (ℚ × ℚ)).length) ∧
    (∑ i ∈ Finset.range (featureBinMapper exHistDs 0).numBin,
      ((fixHistogram exHistDs 0 8 8 [(3, 3), (0, 0), (2, 2)]).getD i (0, 0)).1) = 8 :=
  ⟨⟨by decide, by decide, by decide⟩,
    ((fixHistogram_repairs exHistDs 0 8 8 [(3, 3), (0, 0), (2, 2)]
      (by decide) (by decide)).1 (by decide)).2.2.1⟩

/-! Lemmas about `addFeaturesFrom` (claim C6). -/

/-- The four cases of the file-local `PushClearIfEmpty`. -/
theorem pushClearIfEmpty_cases {α : Type _} (dest : List α) (dl : Nat) (src : List α)
    (sl : Nat) (dflt : α) :
    (dest ≠ [] → src ≠ [] → pushClearIfEmpty dest dl src sl dflt = dest ++ src) ∧
    (dest ≠ [] → src = [] →
      pushClearIfEmpty dest dl src sl dflt = dest ++ List.replicate sl dflt) ∧
    (dest = [] → src ≠ [] →
      pushClearIfEmpty dest dl src sl dflt = List.replicate dl dflt ++ src) ∧
    (dest = [] → src = [] → pushClearIfEmpty dest dl src sl dflt = []) := by
  unfold pushClearIfEmpty
  by_cases hd : dest = [] <;> by_cases hs : src = [] <;>
    simp [hd, hs, List.isEmpty_iff]

/-- Length accounting for `PushClearIfEmpty` under well-formed inputs. -/
theorem pushClearIfEmpty_length {α : Type _} (dest : List α) (dl : Nat) (src : List α)
    (sl : Nat) (dflt : α) (hd : dest = [] ∨ dest.length = dl)
    (hs : src = [] ∨ src.length = sl) :
    pushClearIfEmpty dest dl src sl dflt = [] ∨
      (pushClearIfEmpty dest dl src sl dflt).length = dl + sl := by
  obtain ⟨c1, c2, c3, c4⟩ := pushClearIfEmpty_cases dest dl src sl dflt
  by_cases hde : dest = []
  · by_cases hse : src = []
    · exact Or.inl (c4 hde hse)
    · right
      rw [c3 hde hse]
      rcases hs with hs | hs
      · exact absurd hs hse
      · simp [hs]
  · by_cases hse : src = []
    · right
      rw [c2 hde hse]
      rcases hd with hd | hd
      · exact absurd hd hde
      · simp [hd]
    · right
      rw [c1 hde hse]
      rcases hd with hd | hd
      · exact absurd hd hde
      · rcases hs with hs | hs
        · exact absurd hs hse
        · simp [hd, hs]

/-- Claim C6 counterexample: with one trivial feature on the receiver
(`num_features = 1 < 2 = num_total_features`) and a monotone vector only on the
argument, `addFeaturesFrom` pads with `num_total_features` defaults, and the
resulting monotone vector is non-empty yet not of the expected per-inner-feature
length for the combined dataset. -/
theorem addFeaturesFrom_monotone_length_cex :
    (addFeaturesFrom exDsA exDsB).isSome = true ∧
      ((addFeaturesFrom exDsA exDsB).getD exDsA).monotoneTypes ≠ [] ∧
      ((addFeaturesFrom exDsA exDsB).getD exDsA).monotoneTypes.length ≠
        ((addFeaturesFrom exDsA exDsB).getD exDsA).numFeatures :=
  ⟨by decide, by decide, by decide⟩

/-- Claim C6 (amended): for datasets with equal row counts, each optional
per-feature vector follows the three-way rule with pad length equal to the
absent side's `num_total_features`; consequently `max_bin_by_feature` is always
empty or of the exact combined total-feature length, and `monotone_types` /
`feature_penalty` are empty or of the exact combined inner-feature length
whenever neither dataset has trivial features. -/
theorem addFeaturesFrom_three_way (d other : DatasetAF)
    (hrow : other.numData = d.numData)
    (hm1 : d.monotoneTypes = [] ∨ d.monotoneTypes.length = d.numFeatures)
    (hm2 : other.monotoneTypes = [] ∨ other.monotoneTypes.length = other.numFeatures)
    (hp1 : d.featurePenalty = [] ∨ d.featurePenalty.length = d.numFeatures)
    (hp2 : other.featurePenalty = [] ∨ other.featurePenalty.length = other.numFeatures)
    (hb1 : d.maxBinByFeature = [] ∨ d.maxBinByFeature.length = d.numTotalFeatures)
    (hb2 : other.maxBinByFeature = [] ∨
      other.maxBinByFeature.length = other.numTotalFeatures) :
    ∃ r, addFeaturesFrom d other = some r ∧
      (d.monotoneTypes ≠ [] → other.monotoneTypes ≠ [] →
        r.monotoneTypes = d.monotoneTypes ++ other.monotoneTypes) ∧
      (d.monotoneTypes ≠ [] → other.monotoneTypes = [] →
        r.monotoneTypes = d.monotoneTypes ++ List.replicate other.numTotalFeatures 0) ∧
      (d.monotoneTypes = [] → other.monotoneTypes ≠ [] →
        r.monotoneTypes = List.replicate d.numTotalFeatures 0 ++ other.monotoneTypes) ∧
      (d.monotoneTypes = [] → other.monotoneTypes = [] → r.monotoneTypes = []) ∧
      (d.featurePenalty ≠ [] → other.featurePenalty ≠ [] →
        r.featurePenalty = d.featurePenalty ++ other.featurePenalty) ∧
      (d.featurePenalty ≠ [] → other.featurePenalty = [] →
        r.featurePenalty = d.featurePenalty ++ List.replicate other.numTotalFeatures 1) ∧
      (d.featurePenalty = [] → other.featurePenalty ≠ [] →
        r.featurePenalty = List.replicate d.numTotalFeatures 1 ++ other.featurePenalty) ∧
      (d.featurePenalty = [] → other.featurePenalty = [] → r.featurePenalty = []) ∧
      (d.maxBinByFeature ≠ [] → other.maxBinByFeature ≠ [] →
        r.maxBinByFeature = d.maxBinByFeature ++ other.maxBinByFeature) ∧
      (d.maxBinByFeature ≠ [] → other.maxBinByFeature = [] →
        r.maxBinByFeature = d.maxBinByFeature ++
          List.replicate other.numTotalFeatures (-1)) ∧
      (d.maxBinByFeature = [] → other.maxBinByFeature ≠ [] →
        r.maxBinByFeature = List.replicate d.numTotalFeatures (-1) ++
          other.maxBinByFeature) ∧
      (d.maxBinByFeature = [] → other.maxBinByFeature = [] → r.maxBinByFeature = []) ∧
      (r.maxBinByFeature = [] ∨ r.maxBinByFeature.length = r.numTotalFeatures) ∧
      (d.numFeatures = d.numTotalFeatures → other.numFeatures = other.numTotalFeatures →
        (r.monotoneTypes = [] ∨ r.monotoneTypes.length = r.numFeatures) ∧
        (r.featurePenalty = [] ∨ r.featurePenalty.length = r.numFeatures)) := by
  unfold addFeaturesFrom
  rw [if_neg (by omega)]
  obtain ⟨m1, m2, m3, m4⟩ := pushClearIfEmpty_cases d.monotoneTypes d.numTotalFeatures
    other.monotoneTypes other.numTotalFeatures (0 : Int)
  obtain ⟨p1, p2, p3, p4⟩ := pushClearIfEmpty_cases d.featurePenalty d.numTotalFeatures
    other.featurePenalty other.numTotalFeatures (1 : ℚ)
  obtain ⟨b1, b2, b3, b4⟩ := pushClearIfEmpty_cases d.maxBinByFeature d.numTotalFeatures
    other.maxBinByFeature other.numTotalFeatures (-1 : Int)
  refine ⟨_, rfl, m1, m2, m3, m4, p1, p2, p3, p4, b1, b2, b3, b4, ?_, ?_⟩
  · exact pushClearIfEmpty_length d.maxBinByFeature d.numTotalFeatures
      other.maxBinByFeature other.numTotalFeatures (-1) hb1 hb2
  · intro hd hod
    constructor
    · have := pushClearIfEmpty_length d.monotoneTypes d.numTotalFeatures
        other.monotoneTypes other.numTotalFeatures (0 : Int)
        (by rwa [← hd]) (by rwa [← hod])
      simpa [hd, hod] using this
    · have := pushClearIfEmpty_length d.featurePenalty d.numTotalFeatures
        other.featurePenalty other.numTotalFeatures (1 : ℚ)
        (by rwa [← hd]) (by rwa [← hod])
      simpa [hd, hod] using this

theorem addFeaturesFrom_three_way_witness :
    (exDsB.numData = exDsA'.numData) ∧
      ∃ r, addFeaturesFrom exDsA' exDsB = some r ∧
        (r.monotoneTypes = [] ∨ r.monotoneTypes.length = r.numFeatures) := by
  refine ⟨by decide, ?_⟩
  obtain ⟨r, hr, _, _, _, _, _, _, _, _, _, _, _, _, _, hlast⟩ :=
    addFeaturesFrom_three_way exDsA' exDsB (by decide) (by decide) (by decide)
      (by decide) (by decide) (by decide) (by decide)
  exact ⟨r, hr, (hlast (by decide) (by decide)).1⟩

/-! Lemmas about `SaveBinaryFile` (claim C7). -/

/-- Claim C7 counterexample: saving to a filename equal to the dataset's own
data file produces the same-file warning and returns; it is not reported on the
fatal channel. -/
theorem saveBinaryFile_same_file_cex :
    saveBinaryFile exDsSV (some "train.csv") (fun _ => false) true =
        SaveOutcome.warnSameFile ∧
      saveBinaryFile exDsSV (some "train.csv") (fun _ => false) true ≠
        SaveOutcome.fatalCannotWrite :=
  ⟨by decide, by decide⟩

/-- Claim C7 (amended): calling `SaveBinaryFile` with a filename equal to the
dataset's own data filename logs a warning ("already exists") and returns
without writing, for every filesystem state and writer outcome. -/
theorem saveBinaryFile_same_file_warns (ds : DatasetSV) (fs : String → Bool)
    (wi : Bool) :
    saveBinaryFile ds (some ds.dataFilename) fs wi = SaveOutcome.warnSameFile := by
  unfold saveBinaryFile
  dsimp only
  rw [if_pos rfl]

/-! Lemmas about `ConstructHistograms` (claim C8). -/

/-- Claim C8: a call with `leaf_idx < 0`, `num_data < 0`, or a null `hist_data`
buffer returns immediately, leaving `hist_data`, `ordered_gradients`,
`ordered_hessians`, and the scratch `hist_buf_` unchanged. -/
theorem constructHistograms_guard_noop (ds : HistDS) (binHist : BinHistFn)
    (numThreads : Nat) (isFeatureUsed : List Bool) (dataIndices : Option (List Nat))
    (numData : Int) (leafIdx : Int)
    (gradients hessians orderedGradients orderedHessians : List ℚ)
    (isConstantHessian : Bool) (histData : Option (List ℚ)) (histBuf : List ℚ)
    (h : leafIdx < 0 ∨ numData < 0 ∨ histData = none) :
    constructHistograms ds binHist numThreads isFeatureUsed dataIndices numData leafIdx
        gradients hessians orderedGradients orderedHessians isConstantHessian histData
        histBuf =
      (histData, orderedGradients, orderedHessians, histBuf) := by
  unfold constructHistograms
  rw [if_pos h]

theorem constructHistograms_guard_noop_witness :
    ((-1 : Int) < 0 ∨ (4 : Int) < 0 ∨ (some [0, 0, 0, 0, 0, 0] : Option (List ℚ)) = none) ∧
      constructHistograms exHistDS exBinHist 1 [true] none 4 (-1) [1, 1, 1, 1]
          [1, 1, 1, 1] [0, 0, 0, 0] [0, 0, 0, 0] true (some [0, 0, 0, 0, 0, 0]) [] =
        (some [0, 0, 0, 0, 0, 0], [0, 0, 0, 0], [0, 0, 0, 0], []) :=
  ⟨Or.inl (by norm_num),
    constructHistograms_guard_noop exHistDS exBinHist 1 [true] none 4 (-1) [1, 1, 1, 1]
      [1, 1, 1, 1] [0, 0, 0, 0] [0, 0, 0, 0] true (some [0, 0, 0, 0, 0, 0]) []
      (Or.inl (by norm_num))⟩

end LightGBM
